import Mathlib

/-!
# Waypoint loader: format detection, validation, parsing

A shallow embedding of `waypoint_loader_core.cpp` (namespace `waypoint_maker`).

* Text is `List Char`; a file system is a map from a path to the content of the
  file at that path, `none` when the file cannot be opened.
* `std::getline` on a stream is modelled by `getline` (one extraction) and
  `getlineAll` (the fields obtained by calling it until it fails).
* C++ exceptions and out-of-range `operator[]` are modelled by `Except Fault`.
* `double`, the orientation type and the library functions on them (`std::stod`,
  `std::stoi`, `atan2`, `kmph2mps`, `tf::createQuaternionMsgFromYaw`) are the
  fields of a `Platform`; `exact` is an executable instance with exact rational
  arithmetic and an uninterpreted `atan2`.
* What the serializer needs (`tf::getYaw`, `mps2kmph`, the text `operator<<` writes
  for a number) are the fields of an `Output`; `exactOutput` is its executable
  instance.
* The node is its three members; a run is a sequence of triggers; a fault that
  leaves `configCallback` leaves the node as the call left it.
-/

namespace WaypointLoader

/-! ## Streams and columns -/

/-- Text: the characters of a `std::string`. -/
abbrev Text := List Char

/-- What a C++ call can end in instead of a result: the two standard exceptions
the code can raise, and an out-of-range `operator[]` on a vector. -/
inductive Fault where
  | invalid_argument
  | out_of_range
  | undefined_behaviour
  deriving DecidableEq, Repr

/-- One call `std::getline(ss, column, d)` on a stream whose unread characters are
the argument: `none` when nothing can be extracted (the stream is at its end, the
call sets failbit), otherwise the extracted field and the characters left unread.
The delimiter is extracted and dropped; reaching the end of the stream after at
least one character is a success. -/
def getline (d : Char) : Text → Option (Text × Text)
  | [] => none
  | c :: cs =>
    if c = d then some ([], cs)
    else
      match getline d cs with
      | none => some ([c], [])
      | some (f, rest) => some (c :: f, rest)

/-- The fields read by `while (std::getline(ss, column, d))` from a stream holding
the given characters, in order (see `getlineAll_unfold`). -/
def getlineAll (d : Char) : Text → List Text
  | [] => []
  | c :: cs =>
    if c = d then [] :: getlineAll d cs
    else
      match getlineAll d cs with
      | [] => [[c]]
      | p :: ps => (c :: p) :: ps

/-- The inner loop of `parseColumns`: erase the first `' '` until there is none. -/
def eraseSpaces (column : Text) : Text :=
  column.filter (fun c => c != ' ')

/-- `parseColumns(line, &columns)` on an empty `columns`: every field read up to a
`','`, its `' '` characters erased, pushed when it is not empty. -/
def parseColumns (line : Text) : List Text :=
  ((getlineAll ',' line).map eraseSpaces).filter (fun column => !column.isEmpty)

/-- `countColumns(line)`: the number of successful `std::getline(ss, column, ',')`. -/
def countColumns (line : Text) : Nat :=
  (getlineAll ',' line).length

/-! ## Files -/

/-- A file system: the content of the file at a path, `none` when `std::ifstream`
fails to open it. -/
abbrev FileSystem := Text → Option Text

/-- The lines `std::getline(ifs, line)` reads from a file, in order. -/
def fileLines (content : Text) : List Text :=
  getlineAll '\n' content

/-- The string left in `line` by the first `std::getline(ifs, line)` on a freshly
opened file: the first line, or the empty string when the call fails. -/
def firstLine (content : Text) : Text :=
  (fileLines content).headD []

/-- The lines read by the `while (std::getline(ifs, line))` loop that follows the
first `std::getline`. -/
def dataLines (content : Text) : List Text :=
  (fileLines content).tail

/-! ## Format detection and validation -/

/-- `enum class FileFormat`. -/
inductive FileFormat where
  | ver1
  | ver2
  | ver3
  | unknown
  deriving DecidableEq, Repr

/-- `WaypointLoaderNode::checkFileFormat`. `parsed_columns.at(0)` raises
`std::out_of_range` when the first line has no column. -/
def checkFileFormat (fs : FileSystem) (filename : Text) : Except Fault FileFormat :=
  match fs filename with
  | none => .ok .unknown
  | some content =>
    let line := firstLine content
    match parseColumns line with
    | [] => .error .out_of_range
    | first :: _ =>
      if !first.any Char.isDigit then .ok .ver3
      else
        let num_of_columns := countColumns line
        .ok (if num_of_columns = 3 then .ver1
             else if num_of_columns = 4 then .ver2
             else .unknown)

/-- The `ncol` of `verifyFileConsistency` for a format and the first line. -/
def expectedColumns (format : FileFormat) (line : Text) : Nat :=
  if format = .ver1 then 4
  else if format = .ver2 then 5
  else countColumns line

/-- `WaypointLoaderNode::verifyFileConsistency`. -/
def verifyFileConsistency (fs : FileSystem) (filename : Text) : Except Fault Bool :=
  match fs filename with
  | none => .ok false
  | some content =>
    match checkFileFormat fs filename with
    | .error e => .error e
    | .ok format =>
      if format = .unknown then .ok false
      else
        let ncol := expectedColumns format (firstLine content)
        .ok ((dataLines content).all (fun line => countColumns line == ncol))

/-! ## Numbers, waypoints and lanes -/

/-- The numeric library the loader is compiled against. `D` stands for `double`,
`Q` for `geometry_msgs::Quaternion`. `std::stod` and `std::stoi` raise
`std::invalid_argument` or `std::out_of_range` instead of returning; both raise
`std::invalid_argument` on the empty string. -/
structure Platform (D Q : Type) where
  /-- The value of `std::stod`. -/
  stod : Text → Except Fault D
  /-- The value of `std::stoi`. -/
  stoi : Text → Except Fault Int
  /-- The value of `kmph2mps`. -/
  kmph2mps : D → D
  /-- The value of `atan2(y, x)`. -/
  atan2 : D → D → D
  /-- Subtraction of doubles. -/
  sub : D → D → D
  /-- The value of `tf::createQuaternionMsgFromYaw`. -/
  createQuaternionMsgFromYaw : D → Q
  /-- The double `0.0` of a value-initialised message field. -/
  zero : D
  /-- The quaternion of a value-initialised message. -/
  zeroQuaternion : Q
  /-- No conversion can be performed on the empty string. -/
  stod_nil : stod [] = .error .invalid_argument
  /-- No conversion can be performed on the empty string. -/
  stoi_nil : stoi [] = .error .invalid_argument

/-- Modelled from the spec: the message type `aslan_msgs::Waypoint` is declared
outside the sources. The fields the loader writes: `pose.pose.position` (three
doubles), `pose.pose.orientation`, `twist.twist.linear.x` (the speed in m/s),
`change_flag` (an integer) and the four small-integer fields of `wpstate`. -/
structure Waypoint (D Q : Type) where
  x : D
  y : D
  z : D
  orientation : Q
  velocity : D
  change_flag : Int
  steering_state : Nat
  accel_state : Nat
  stopline_state : Nat
  event_state : Nat
  deriving DecidableEq, Repr

/-- Modelled from the spec: the message type `aslan_msgs::Lane` is declared outside
the sources. The fields the loader writes: the frame identifier, the time stamp
(`ros::Time(0)` is `0`) and the ordered points. -/
structure Lane (D Q : Type) where
  frame_id : Text
  stamp : Nat
  waypoints : List (Waypoint D Q)
  deriving DecidableEq, Repr

/-- Modelled from the spec: the `wpstate` fields are small unsigned integers, taken
as 8 bits wide; the conversion of the `int` returned by `std::stoi` to such a
field. -/
def toUInt8 (v : Int) : Nat :=
  (v % 256).toNat

/-- What `n - 1` is in `size_t`, for `n` a size or an index of a container. -/
def sizeMinusOne (n : Nat) : Nat :=
  if n = 0 then 2 ^ 64 - 1 else n - 1

section Loader

variable {D Q : Type} (P : Platform D Q)

/-- A value-initialised `aslan_msgs::Waypoint wp;`. -/
def Waypoint.init : Waypoint D Q :=
  { x := P.zero, y := P.zero, z := P.zero, orientation := P.zeroQuaternion,
    velocity := P.zero, change_flag := 0, steering_state := 0, accel_state := 0,
    stopline_state := 0, event_state := 0 }

/-- A value-initialised `aslan_msgs::Lane lane;`: the empty route. -/
def Lane.init : Lane D Q :=
  { frame_id := [], stamp := 0, waypoints := [] }

/-- `columns[i]` on a `std::vector`: out of range is undefined behaviour. -/
def index (columns : List Text) (i : Nat) : Except Fault Text :=
  match columns[i]? with
  | some c => .ok c
  | none => .error .undefined_behaviour

/-- `v.at(i)` on a `std::vector`: out of range raises `std::out_of_range`. -/
def vectorAt {α : Type} (v : List α) (i : Nat) : Except Fault α :=
  match v[i]? with
  | some a => .ok a
  | none => .error .out_of_range

/-- `WaypointLoaderNode::parseWaypointForVer1` on a value-initialised waypoint. -/
def parseWaypointForVer1 (line : Text) : Except Fault (Waypoint D Q) := do
  let columns := parseColumns line
  let x ← (index columns 0).bind P.stod
  let y ← (index columns 1).bind P.stod
  let z ← (index columns 2).bind P.stod
  let v ← (index columns 3).bind P.stod
  pure { Waypoint.init P with x := x, y := y, z := z, velocity := P.kmph2mps v }

/-- One iteration of the heading loop of `loadWaypointsForVer1`, for index `i`. -/
def headingStep (last : Nat) (wps : List (Waypoint D Q)) (i : Nat) :
    Except Fault (List (Waypoint D Q)) :=
  if i ≠ last then do
    let next ← vectorAt wps (i + 1)
    let cur ← vectorAt wps i
    let yaw := P.atan2 (P.sub next.y cur.y) (P.sub next.x cur.x)
    pure (wps.set i { cur with orientation := P.createQuaternionMsgFromYaw yaw })
  else do
    let prev ← vectorAt wps (sizeMinusOne i)
    let cur ← vectorAt wps i
    pure (wps.set i { cur with orientation := prev.orientation })

/-- The heading loop of `loadWaypointsForVer1`: `i` runs from `0` to `size - 1`. -/
def headingPass (wps : List (Waypoint D Q)) : Except Fault (List (Waypoint D Q)) :=
  (List.range wps.length).foldlM (headingStep P (sizeMinusOne wps.length)) wps

/-- `WaypointLoaderNode::loadWaypointsForVer1` on an empty `wps`. -/
def loadWaypointsForVer1 (fs : FileSystem) (filename : Text) :
    Except Fault (List (Waypoint D Q)) :=
  match fs filename with
  | none => .ok []
  | some content => do
    let wps ← (dataLines content).mapM (parseWaypointForVer1 P)
    headingPass P wps

/-- `WaypointLoaderNode::parseWaypointForVer2` on a value-initialised waypoint. -/
def parseWaypointForVer2 (line : Text) : Except Fault (Waypoint D Q) := do
  let columns := parseColumns line
  let x ← (index columns 0).bind P.stod
  let y ← (index columns 1).bind P.stod
  let z ← (index columns 2).bind P.stod
  let yaw ← (index columns 3).bind P.stod
  let v ← (index columns 4).bind P.stod
  pure { Waypoint.init P with
    x := x, y := y, z := z, orientation := P.createQuaternionMsgFromYaw yaw,
    velocity := P.kmph2mps v }

/-- `WaypointLoaderNode::loadWaypointsForVer2` on an empty `wps`. -/
def loadWaypointsForVer2 (fs : FileSystem) (filename : Text) :
    Except Fault (List (Waypoint D Q)) :=
  match fs filename with
  | none => .ok []
  | some content => (dataLines content).mapM (parseWaypointForVer2 P)

/-- A `std::unordered_map<std::string, std::string>` as its key and value pairs. -/
abbrev StringMap := List (Text × Text)

/-- `map.find(key)`: the value stored at `key`, `none` for `map.end()`. -/
def mapFind : StringMap → Text → Option Text
  | [], _ => none
  | (k, v) :: rest, key => if k = key then some v else mapFind rest key

/-- `map[key] = value`. -/
def mapAssign : StringMap → Text → Text → StringMap
  | [], key, value => [(key, value)]
  | (k, v) :: rest, key, value =>
    if k = key then (k, value) :: rest else (k, v) :: mapAssign rest key value

/-- Reading `map[key]`: the value stored at `key`; an absent key is first inserted
with the empty string. Returns the value and the map after the call. -/
def mapIndex (map : StringMap) (key : Text) : Text × StringMap :=
  match mapFind map key with
  | some v => (v, map)
  | none => ([], mapAssign map key [])

/-- The loop `map[contents.at(i)] = columns.at(i)` of `parseWaypointForVer3`. -/
def fillMap : List Text → List Text → StringMap → Except Fault StringMap
  | [], _, map => .ok map
  | _ :: _, [], _ => .error .out_of_range
  | name :: contents, column :: columns, map =>
    fillMap contents columns (mapAssign map name column)

/-- An optional field of `parseWaypointForVer3`:
`(map.find(key) != map.end()) ? std::stoi(map[key]) : 0`, stored in a `uint8`. -/
def optionalState (map : StringMap) (key : Text) : Except Fault Nat :=
  match mapFind map key with
  | some v => (P.stoi v).map toUInt8
  | none => .ok (toUInt8 0)

/-- `WaypointLoaderNode::parseWaypointForVer3` on a value-initialised waypoint. -/
def parseWaypointForVer3 (line : Text) (contents : List Text) :
    Except Fault (Waypoint D Q) := do
  let columns := parseColumns line
  let map ← fillMap contents columns []
  let (sx, map) := mapIndex map "x".toList
  let x ← P.stod sx
  let (sy, map) := mapIndex map "y".toList
  let y ← P.stod sy
  let (sz, map) := mapIndex map "z".toList
  let z ← P.stod sz
  let (syaw, map) := mapIndex map "yaw".toList
  let yaw ← P.stod syaw
  let (sv, map) := mapIndex map "velocity".toList
  let v ← P.stod sv
  let (sc, map) := mapIndex map "change_flag".toList
  let change_flag ← P.stoi sc
  let steering_state ← optionalState P map "steering_flag".toList
  let accel_state ← optionalState P map "accel_flag".toList
  let stopline_state ← optionalState P map "stop_flag".toList
  let event_state ← optionalState P map "event_flag".toList
  pure { x := x, y := y, z := z, orientation := P.createQuaternionMsgFromYaw yaw,
         velocity := P.kmph2mps v, change_flag := change_flag,
         steering_state := steering_state, accel_state := accel_state,
         stopline_state := stopline_state, event_state := event_state }

/-- `WaypointLoaderNode::loadWaypointsForVer3` on an empty `wps`. -/
def loadWaypointsForVer3 (fs : FileSystem) (filename : Text) :
    Except Fault (List (Waypoint D Q)) :=
  match fs filename with
  | none => .ok []
  | some content =>
    let contents := parseColumns (firstLine content)
    (dataLines content).mapM (fun line => parseWaypointForVer3 P line contents)

/-- `WaypointLoaderNode::createLaneWaypoint` on a value-initialised `lane`. -/
def createLaneWaypoint (fs : FileSystem) (file_path : Text) : Except Fault (Lane D Q) := do
  let consistent ← verifyFileConsistency fs file_path
  if !consistent then
    pure (Lane.init)
  else
    let format ← checkFileFormat fs file_path
    let wps ←
      if format = .ver1 then loadWaypointsForVer1 P fs file_path
      else if format = .ver2 then loadWaypointsForVer2 P fs file_path
      else loadWaypointsForVer3 P fs file_path
    pure { frame_id := "/map".toList, stamp := 0, waypoints := wps }

/-- `WaypointLoaderNode::createLaneArray` on an empty `lane_array`. The replanner
is the function `replan` on lanes, applied when `replanning_mode` is set. -/
def createLaneArray (replanning_mode : Bool) (replan : Lane D Q → Lane D Q)
    (fs : FileSystem) (paths : List Text) : Except Fault (List (Lane D Q)) :=
  paths.mapM (fun el => do
    let lane ← createLaneWaypoint P fs el
    pure (if replanning_mode then replan lane else lane))

end Loader

/-! ## Path suffix -/

/-- `s.find_last_of(c)` for a one-character set: the index of the last `c` in `s`,
`none` for `npos`. -/
def findLastOf : Text → Char → Option Nat
  | [], _ => none
  | x :: xs, c =>
    match findLastOf xs c with
    | some i => some (i + 1)
    | none => if x = c then some 0 else none

/-- `s.erase(pos, count)`: removes `min(count, size - pos)` characters from `pos`;
raises `std::out_of_range` when `pos > size`. -/
def stringErase (s : Text) (pos count : Nat) : Except Fault Text :=
  if pos > s.length then .error .out_of_range
  else .ok (s.take pos ++ s.drop (pos + min count (s.length - pos)))

/-- `addFileSuffix(file_path, suffix)`. An index `npos` passed to `erase` is past
the end of the string. -/
def addFileSuffix (file_path suffix : Text) : Except Fault Text := do
  let tmp := file_path
  let idx_slash := findLastOf tmp '/'
  let tmp ←
    match idx_slash with
    | some i => stringErase tmp 0 i
    | none => pure tmp
  let idx_dot := findLastOf tmp '.'
  let idx_dot_allpath := findLastOf file_path '.'
  let file_path ←
    if idx_dot ≠ none ∧ idx_dot ≠ some (sizeMinusOne tmp.length) then
      match idx_dot_allpath with
      | some j => stringErase file_path j (sizeMinusOne file_path.length)
      | none => .error .out_of_range
    else pure file_path
  pure (file_path ++ (suffix ++ ".csv".toList))

/-! ## Saving and the node -/

/-- The numeric output the serializer is compiled against: `tf::getYaw`, `mps2kmph`,
and what `operator<<` writes for a `double` under `std::fixed` and
`std::setprecision(4)` and for an `int`. The text written for a number has no line
break. -/
structure Output (D Q : Type) where
  /-- The value of `tf::getYaw`. -/
  getYaw : Q → D
  /-- The value of `mps2kmph`. -/
  mps2kmph : D → D
  /-- The characters `ofs << std::fixed << std::setprecision(4) << d` writes. -/
  showDouble : D → Text
  /-- The characters `ofs << n` writes for an `int`. -/
  showInt : Int → Text
  /-- A number is written on one line. -/
  showDouble_line : ∀ d, '\n' ∉ showDouble d
  /-- A number is written on one line. -/
  showInt_line : ∀ n, '\n' ∉ showInt n

/-- The header line `saveLaneArray` writes. -/
def canonicalHeader : Text :=
  "x,y,z,yaw,velocity,change_flag,steering_flag,accel_flag,stop_flag,event_flag".toList

/-- Texts written one after the other with `","` between them. -/
def joinComma : List Text → Text
  | [] => []
  | [field] => field
  | field :: rest => field ++ ',' :: joinComma rest

/-- Writing a text to a path: the file system after `std::ofstream ofs(path)` and
the writes, the file being opened and truncated. -/
def writeFile (fs : FileSystem) (path text : Text) : FileSystem :=
  fun p => if p = path then some text else fs p

section Saving

variable {D Q : Type} (O : Output D Q)

/-- The ten numbers `saveLaneArray` writes for a waypoint, in order. -/
def rowFields (el : Waypoint D Q) : List Text :=
  [O.showDouble el.x, O.showDouble el.y, O.showDouble el.z,
   O.showDouble (O.getYaw el.orientation), O.showDouble (O.mps2kmph el.velocity),
   O.showInt el.change_flag, O.showInt el.steering_state, O.showInt el.accel_state,
   O.showInt el.stopline_state, O.showInt el.event_state]

/-- The characters the inner loop of `saveLaneArray` writes: for each waypoint its
numbers with `","` between them, then `std::endl`. -/
def rowsText : List (Waypoint D Q) → Text
  | [] => []
  | el :: rest => joinComma (rowFields O el) ++ '\n' :: rowsText rest

/-- The characters `saveLaneArray` writes to the file of a lane. -/
def laneText (lane : Lane D Q) : Text :=
  canonicalHeader ++ '\n' :: rowsText O lane.waypoints

/-- The loop of `saveLaneArray` from index `idx`: the file system after the writes.
`lane_array.lanes[idx]` out of range is undefined behaviour. -/
def saveLoop (lanes : List (Lane D Q)) : FileSystem → List Text → Nat → Except Fault FileSystem
  | fs, [], _ => .ok fs
  | fs, file_path :: rest, idx =>
    match lanes[idx]? with
    | none => .error .undefined_behaviour
    | some lane => saveLoop lanes (writeFile fs file_path (laneText O lane)) rest (idx + 1)

/-- `WaypointLoaderNode::saveLaneArray`. -/
def saveLaneArray (fs : FileSystem) (paths : List Text) (lane_array : List (Lane D Q)) :
    Except Fault FileSystem :=
  saveLoop O lane_array fs paths 0

/-- The members of `WaypointLoaderNode` the callbacks write. -/
structure Node (D Q : Type) where
  multi_lane_csv : Text
  multi_file_path : List Text
  output_lane_array : List (Lane D Q)

/-- The node after its constructor. -/
def Node.init : Node D Q :=
  { multi_lane_csv := [], multi_file_path := [], output_lane_array := [] }

/-- `WaypointLoaderNode::configCallback` for the configuration string `conf`: the
node after the call, and the fault that left the call, if one did. When
`createLaneArray` raises, `multi_lane_csv_` and `multi_file_path_` are already
replaced and `output_lane_array_` is not. -/
def configCallback (P : Platform D Q) (replanning_mode : Bool) (replan : Lane D Q → Lane D Q)
    (fs : FileSystem) (node : Node D Q) (conf : Text) : Node D Q × Option Fault :=
  let multi_lane_csv := conf
  let multi_file_path := parseColumns multi_lane_csv
  match createLaneArray P replanning_mode replan fs multi_file_path with
  | .error e =>
    ({ multi_lane_csv := multi_lane_csv, multi_file_path := multi_file_path,
       output_lane_array := node.output_lane_array }, some e)
  | .ok lane_array =>
    ({ multi_lane_csv := multi_lane_csv, multi_file_path := multi_file_path,
       output_lane_array := lane_array }, none)

end Saving

section RoundTrip

variable {D Q : Type} (P : Platform D Q) (O : Output D Q)

end RoundTrip

/-! ## Closed forms used in the proofs -/

section ClosedForms

variable {D Q : Type} (P : Platform D Q)

/-- The orientation the heading loop of `loadWaypointsForVer1` gives point `j` of
`pts` when `j` is not the last index: made from the yaw of the step to point
`j + 1`. -/
def yawQ (pts : List (Waypoint D Q)) (j : Nat) : Q :=
  match pts[j]?, pts[j + 1]? with
  | some cur, some next =>
    P.createQuaternionMsgFromYaw (P.atan2 (P.sub next.y cur.y) (P.sub next.x cur.x))
  | _, _ => P.zeroQuaternion

/-- The state of the heading loop after the iterations `0` to `k - 1`. -/
def headed (k : Nat) (pts : List (Waypoint D Q)) : List (Waypoint D Q) :=
  pts.mapIdx (fun j w => if j < k then { w with orientation := yawQ P pts j } else w)

/-- The body of `parseWaypointForVer3` with every `map[key]` read as a lookup in the
map the loop filled (see `parseWaypointForVer3_eq`). -/
def parseRow3 (line : Text) (contents : List Text) : Except Fault (Waypoint D Q) := do
  let map ← fillMap contents (parseColumns line) []
  let x ← P.stod ((mapFind map "x".toList).getD [])
  let y ← P.stod ((mapFind map "y".toList).getD [])
  let z ← P.stod ((mapFind map "z".toList).getD [])
  let yaw ← P.stod ((mapFind map "yaw".toList).getD [])
  let v ← P.stod ((mapFind map "velocity".toList).getD [])
  let change_flag ← P.stoi ((mapFind map "change_flag".toList).getD [])
  let steering_state ← optionalState P map "steering_flag".toList
  let accel_state ← optionalState P map "accel_flag".toList
  let stopline_state ← optionalState P map "stop_flag".toList
  let event_state ← optionalState P map "event_flag".toList
  pure { x := x, y := y, z := z, orientation := P.createQuaternionMsgFromYaw yaw,
         velocity := P.kmph2mps v, change_flag := change_flag,
         steering_state := steering_state, accel_state := accel_state,
         stopline_state := stopline_state, event_state := event_state }

end ClosedForms

/-! ## An executable platform -/

/-- Exact numbers: a rational, or an application of a function the instance does
not interpret. -/
inductive Val where
  | num (q : ℚ)
  | atan2 (y x : Val)
  | sub (a b : Val)
  | kmph2mps (a : Val)
  | mps2kmph (a : Val)
  deriving DecidableEq, Repr

/-- An orientation as the yaw it was made from; `zero` is the quaternion of a
value-initialised message. -/
inductive Heading where
  | zero
  | yaw (v : Val)
  deriving DecidableEq, Repr

/-- `std::isspace` in the C locale. -/
def isSpace (c : Char) : Bool :=
  c = ' ' || c = '\t' || c = '\n' || c = '\x0b' || c = '\x0c' || c = '\r'

/-- The number written by a string of decimal digits. -/
def digitsValue (ds : Text) : Nat :=
  ds.foldl (fun a c => 10 * a + (c.toNat - 48)) 0

/-- An optional sign: whether it is `'-'`, and the characters after it. -/
def splitSign : Text → Bool × Text
  | '-' :: r => (true, r)
  | '+' :: r => (false, r)
  | s => (false, s)

/-- The value of the longest prefix `digits[.digits]` with at least one digit, and
the characters after it. -/
def decimalHead (s : Text) : Option (ℚ × Text) :=
  let ip := s.takeWhile Char.isDigit
  let r := s.dropWhile Char.isDigit
  let (fp, r) :=
    match r with
    | '.' :: r2 => (r2.takeWhile Char.isDigit, r2.dropWhile Char.isDigit)
    | _ => ([], r)
  if ip.isEmpty && fp.isEmpty then none
  else some ((digitsValue (ip ++ fp) : ℚ) / (10 ^ fp.length : ℕ), r)

/-- The factor of an exponent part `e[sign]digits` at the head of the argument, `1`
when there is none. -/
def exponentFactor : Text → ℚ
  | c :: r =>
    if c = 'e' || c = 'E' then
      let (neg, r) := splitSign r
      let ds := r.takeWhile Char.isDigit
      if ds.isEmpty then 1
      else if neg then 1 / (10 ^ digitsValue ds : ℕ) else (10 ^ digitsValue ds : ℕ)
    else 1
  | [] => 1

/-- `std::stod` on decimal literals, read exactly: leading white space, an optional
sign, `digits[.digits]`, an optional exponent; what follows is ignored, and a
string with no such prefix raises `std::invalid_argument`. The hexadecimal, `inf`
and `nan` forms `std::stod` also reads have no value here and are not used. -/
def stodExact (s : Text) : Except Fault Val :=
  let (neg, r) := splitSign (s.dropWhile isSpace)
  match decimalHead r with
  | none => .error .invalid_argument
  | some (m, r) =>
    let v := m * exponentFactor r
    .ok (.num (if neg then -v else v))

/-- `std::stoi` in base 10 for a 32-bit `int`: leading white space, an optional
sign, digits; what follows is ignored. -/
def stoiExact (s : Text) : Except Fault Int :=
  let (neg, r) := splitSign (s.dropWhile isSpace)
  let ds := r.takeWhile Char.isDigit
  if ds.isEmpty then .error .invalid_argument
  else
    let v : Int := if neg then -(digitsValue ds : Int) else (digitsValue ds : Int)
    if -2147483648 ≤ v ∧ v ≤ 2147483647 then .ok v else .error .out_of_range

/-- Modelled from the spec: `kmph2mps` is declared outside the sources; the speed in
km/h divided by 3.6, as `(v * 1000) / (60 * 60)`. -/
def kmph2mpsExact : Val → Val
  | .num q => .num (q * 1000 / (60 * 60))
  | v => .kmph2mps v

/-- The platform with exact arithmetic: numbers are rationals, `atan2` is kept as
an application, an orientation is the yaw it is made from. -/
def exact : Platform Val Heading where
  stod := stodExact
  stoi := stoiExact
  kmph2mps := kmph2mpsExact
  atan2 := Val.atan2
  sub := fun a b =>
    match a, b with
    | .num p, .num q => .num (p - q)
    | a, b => .sub a b
  createQuaternionMsgFromYaw := Heading.yaw
  zero := .num 0
  zeroQuaternion := .zero
  stod_nil := rfl
  stoi_nil := rfl

/-- The count of ten-thousandths nearest to a non-negative number `a / b`, a tie
going to the even count. -/
def roundTenThousandths (a b : Nat) : Nat :=
  let f := a * 10000 / b
  let r := a * 10000 % b
  if 2 * r < b then f
  else if b < 2 * r then f + 1
  else if f % 2 = 0 then f else f + 1

/-- The character of a decimal digit. -/
def digitCharOf : Nat → Char
  | 0 => '0'
  | 1 => '1'
  | 2 => '2'
  | 3 => '3'
  | 4 => '4'
  | 5 => '5'
  | 6 => '6'
  | 7 => '7'
  | 8 => '8'
  | _ => '9'

/-- The decimal digits of a number, the first `fuel` at most, most significant
first. -/
def digitsOf : Nat → Nat → List Nat
  | 0, _ => []
  | fuel + 1, n => if n < 10 then [n] else digitsOf fuel (n / 10) ++ [n % 10]

/-- A natural number in decimal notation. -/
def showNatExact (n : Nat) : Text :=
  (digitsOf (n + 1) n).map digitCharOf

/-- The four decimal digits of the last four places of a count. -/
def fourDigits (n : Nat) : Text :=
  [digitCharOf (n / 1000 % 10), digitCharOf (n / 100 % 10), digitCharOf (n / 10 % 10),
   digitCharOf (n % 10)]

/-- A rational in fixed notation with 4 fractional digits. -/
def showFixed4 (q : ℚ) : Text :=
  let n := roundTenThousandths q.num.natAbs q.den
  (if q.num < 0 then ['-'] else []) ++ showNatExact (n / 10000) ++ '.' :: fourDigits n

/-- The text of an exact number: a rational in fixed notation with 4 fractional
digits; an application the instance does not interpret has no digits and is
written `nan`. -/
def showDoubleExact : Val → Text
  | .num q => showFixed4 q
  | _ => "nan".toList

/-- An `int` in decimal notation. -/
def showIntExact (n : Int) : Text :=
  (if n < 0 then ['-'] else []) ++ showNatExact n.natAbs

/-- Modelled from the spec: `mps2kmph` is declared outside the sources; the speed in
m/s times 3.6, as `(v * 60 * 60) / 1000`. -/
def mps2kmphExact : Val → Val
  | .num q => .num (q * 60 * 60 / 1000)
  | v => .mps2kmph v

/-- The number π to 15 decimal places. -/
def piApprox : ℚ := 3141592653589793 / 1000000000000000

/-- An angle brought into the range from -π (excluded) to π (included) by whole
turns, with `piApprox` for π. -/
def wrapYaw (q : ℚ) : ℚ :=
  q + 2 * piApprox * (Rat.floor ((piApprox - q) / (2 * piApprox)) : ℚ)

/-- The value of `tf::getYaw` on an orientation: for an orientation made from a
yaw, that yaw brought into the range from -π to π (an `atan2` application is in
that range); 0 for the quaternion of a value-initialised message. -/
def getYawExact : Heading → Val
  | .zero => .num 0
  | .yaw (.num q) => .num (wrapYaw q)
  | .yaw v => v

/-- The output with exact arithmetic. -/
def exactOutput : Output Val Heading where
  getYaw := getYawExact
  mps2kmph := mps2kmphExact
  showDouble := showDoubleExact
  showInt := showIntExact
  showDouble_line := by
    intro d
    have hd : ∀ k : Nat, digitCharOf k ≠ '\n' := by
      intro k
      unfold digitCharOf
      split <;> decide
    cases d with
    | num q =>
      simp only [showDoubleExact, showFixed4, showNatExact, fourDigits, List.mem_append,
        List.mem_cons, List.mem_map, List.not_mem_nil, not_or, or_false]
      refine ⟨⟨?_, ?_⟩, by decide, fun h => hd _ h.symm, fun h => hd _ h.symm,
        fun h => hd _ h.symm, fun h => hd _ h.symm⟩
      · split_ifs <;> simp
      · rintro ⟨k, _, hk⟩
        exact hd k hk
    | atan2 y x => show '\n' ∉ "nan".toList; decide
    | sub a b => show '\n' ∉ "nan".toList; decide
    | kmph2mps a => show '\n' ∉ "nan".toList; decide
    | mps2kmph a => show '\n' ∉ "nan".toList; decide
  showInt_line := by
    intro n
    have hd : ∀ k : Nat, digitCharOf k ≠ '\n' := by
      intro k
      unfold digitCharOf
      split <;> decide
    simp only [showIntExact, showNatExact, List.mem_append, List.mem_map, not_or]
    refine ⟨?_, ?_⟩
    · split_ifs <;> simp
    · rintro ⟨k, _, hk⟩
      exact hd k hk

/-! ## Definitions that follow the specification -/

/-- The tokens of a line as the specification words them: split on `','`, delete
every white-space character of each part, drop the parts that are then empty. -/
def tokenizeSpec (line : Text) : List Text :=
  ((line.splitOn ',').map (fun part => part.filter (fun c => !c.isWhitespace))).filter
    (fun part => !part.isEmpty)

/-- The expected count of the validator as the specification words it: 4 for the
first legacy schema, 5 for the second, the number of header tokens otherwise. -/
def expectedTokensSpec (format : FileFormat) (line : Text) : Nat :=
  match format with
  | .ver1 => 4
  | .ver2 => 5
  | _ => (parseColumns line).length

/-- The validator as the specification words it, for a readable file of detected
format `format`: the format is known and every line after the first has the
expected number of tokens. -/
def validateSpec (format : FileFormat) (content : Text) : Bool :=
  format != .unknown &&
    (dataLines content).all
      (fun line => (parseColumns line).length == expectedTokensSpec format (firstLine content))

/-- The test on the first token as the specification words it: the token has a
character that is not a decimal digit. -/
def hasNonDigitSpec (token : Text) : Bool :=
  token.any (fun c => !c.isDigit)

/-- The final segment of a path as the specification words it: the part after the
last `'/'`, the whole path when there is none. -/
def finalSegmentSpec (path : Text) : Text :=
  (path.reverse.takeWhile (fun c => c != '/')).reverse

/-- A path truncated just before its last `'.'`. -/
def truncateAtLastDotSpec (path : Text) : Text :=
  ((path.reverse.dropWhile (fun c => c != '.')).drop 1).reverse

/-- The suffixed path as the specification words it: when the final segment has a
`'.'` that is not its last character, the path truncated just before its last
`'.'`, otherwise the path; then the suffix and `.csv`. -/
def suffixPathSpec (path suffix : Text) : Text :=
  (if '.' ∈ (finalSegmentSpec path).dropLast then truncateAtLastDotSpec path else path)
    ++ suffix ++ ".csv".toList

/-! ## Files used in the examples -/

/-- The file system with one readable file, at path `f`. -/
def oneFile (content : String) : FileSystem :=
  fun path => if path = "f".toList then some content.toList else none

/-- The file system with two readable files, at paths `a` and `b`. -/
def twoFiles (a b : String) : FileSystem :=
  fun path =>
    if path = "a".toList then some a.toList
    else if path = "b".toList then some b.toList
    else none

/-- The lane of one waypoint at (1, 2, 0) with yaw 1.57 and speed 10 m/s, as built
from the row `1,2,0,1.57,36`. -/
def onePointLane : Lane Val Heading :=
  { frame_id := "/map".toList, stamp := 0, waypoints :=
      [{ Waypoint.init exact with
          x := .num 1, y := .num 2, z := .num 0, orientation := .yaw (.num (157 / 100)),
          velocity := .num 10 }] }

deriving instance DecidableEq for Except

/-! ## Streams and columns: lemmas -/

/-- The fields of `getlineAll` are those of successive `getline` calls. -/
theorem getlineAll_unfold (d : Char) (s : Text) :
    getlineAll d s =
      match getline d s with
      | none => []
      | some (f, rest) => f :: getlineAll d rest := by
  induction s with
  | nil => rfl
  | cons c cs ih =>
    by_cases h : c = d
    · simp [getlineAll, getline, h]
    · simp only [getlineAll, getline, h, if_false]
      rw [ih]
      cases hg : getline d cs with
      | none => simp [getlineAll]
      | some fr => obtain ⟨f, rest⟩ := fr; simp

/-- The library split of a list on a separator, one step. -/
theorem splitOn_cons (d c : Char) (cs : Text) :
    (c :: cs).splitOn d =
      if c = d then [] :: cs.splitOn d else (cs.splitOn d).modifyHead (List.cons c) := by
  simp only [List.splitOn, List.splitOnP_cons, beq_iff_eq]

/-- The fields read by `getline` are the parts of the conventional split, without
the last part when it is empty and follows a delimiter or the start of the line. -/
theorem splitOn_getlineAll (d : Char) (s : Text) :
    s.splitOn d = getlineAll d s ++ [[]] ∨
      (s.splitOn d = getlineAll d s ∧ getlineAll d s ≠ []) := by
  induction s with
  | nil => left; simp [getlineAll]
  | cons c cs ih =>
    rw [splitOn_cons]
    by_cases h : c = d
    · simp only [h, if_true, getlineAll]
      rcases ih with ih | ⟨ih, _⟩
      · left; rw [ih]; rfl
      · right; rw [ih]; simp
    · simp only [h, if_false, getlineAll]
      rcases ih with ih | ⟨ih, hne⟩
      · rw [ih]
        cases hg : getlineAll d cs with
        | nil => right; simp [List.modifyHead]
        | cons p ps => left; simp [List.modifyHead]
      · rw [ih]
        cases hg : getlineAll d cs with
        | nil => exact absurd hg hne
        | cons p ps => right; simp [List.modifyHead]

/-! ## Lists in `Except`: lemmas -/

theorem mapM_except_nil {ε α β : Type} (f : α → Except ε β) :
    ([] : List α).mapM f = .ok [] := rfl

theorem mapM_except_cons {ε α β : Type} (f : α → Except ε β) (a : α) (l : List α) :
    (a :: l).mapM f =
      match f a with
      | .error e => .error e
      | .ok b =>
        match l.mapM f with
        | .error e => .error e
        | .ok bs => .ok (b :: bs) := by
  rw [List.mapM_cons]
  cases f a with
  | error e => rfl
  | ok b =>
    cases l.mapM f with
    | error e => rfl
    | ok bs => rfl

theorem mapM_except_ok {ε α β : Type} (f : α → Except ε β) (l : List α)
    (h : ∀ a ∈ l, ∃ b, f a = .ok b) :
    ∃ bs, l.mapM f = .ok bs ∧ bs.length = l.length ∧
      ∀ (i : Nat) (a : α), l[i]? = some a → ∃ b, bs[i]? = some b ∧ f a = .ok b := by
  induction l with
  | nil => exact ⟨[], rfl, rfl, by simp⟩
  | cons a l ih =>
    obtain ⟨b, hb⟩ := h a (List.mem_cons_self a l)
    obtain ⟨bs, hbs, hlen, hidx⟩ := ih (fun x hx => h x (List.mem_cons_of_mem a hx))
    refine ⟨b :: bs, ?_, by simp [hlen], ?_⟩
    · rw [mapM_except_cons, hb, hbs]
    · intro i x hx
      cases i with
      | zero =>
        simp only [List.getElem?_cons_zero, Option.some.injEq] at hx
        subst hx
        exact ⟨b, by simp, hb⟩
      | succ i =>
        simp only [List.getElem?_cons_succ] at hx ⊢
        exact hidx i x hx

theorem mapM_except_mem {ε α β : Type} (f : α → Except ε β) (l : List α) (bs : List β)
    (h : l.mapM f = .ok bs) : ∀ b ∈ bs, ∃ a ∈ l, f a = .ok b := by
  induction l generalizing bs with
  | nil =>
    rw [mapM_except_nil] at h
    cases h
    simp
  | cons a l ih =>
    rw [mapM_except_cons] at h
    cases hfa : f a with
    | error e => rw [hfa] at h; cases h
    | ok b0 =>
      rw [hfa] at h
      cases hl : l.mapM f with
      | error e => rw [hl] at h; cases h
      | ok bs0 =>
        rw [hl] at h
        cases h
        intro b hb
        rcases List.mem_cons.mp hb with rfl | hb
        · exact ⟨a, List.mem_cons_self a l, hfa⟩
        · obtain ⟨x, hx, hfx⟩ := ih bs0 hl b hb
          exact ⟨x, List.mem_cons_of_mem a hx, hfx⟩

theorem mapM_except_error {ε α β : Type} (f : α → Except ε β) (a : α) (l : List α) (e : ε)
    (h : f a = .error e) : (a :: l).mapM f = .error e := by
  rw [mapM_except_cons, h]

/-- A list mapped in `Except` raises the fault of the first element that raises. -/
theorem mapM_except_first_error {ε α β : Type} (f : α → Except ε β) (pre post : List α)
    (a : α) (e : ε) (hpre : ∀ x ∈ pre, ∃ b, f x = .ok b) (h : f a = .error e) :
    (pre ++ a :: post).mapM f = .error e := by
  induction pre with
  | nil => exact mapM_except_error f a post e h
  | cons x xs ih =>
    obtain ⟨b, hb⟩ := hpre x (List.mem_cons_self _ _)
    rw [List.cons_append, mapM_except_cons, hb,
      ih (fun y hy => hpre y (List.mem_cons_of_mem _ hy))]

/-- A list mapped in `Except` raises when one of its elements raises. -/
theorem mapM_except_raises {ε α β : Type} (f : α → Except ε β) (l : List α) (a : α) (e : ε)
    (ha : a ∈ l) (h : f a = .error e) : ∃ e2, l.mapM f = .error e2 := by
  induction l with
  | nil => cases ha
  | cons x xs ih =>
    rw [mapM_except_cons]
    cases hx : f x with
    | error e1 => exact ⟨e1, rfl⟩
    | ok b =>
      have hmem : a ∈ xs := by
        rcases List.mem_cons.mp ha with rfl | hm
        · rw [h] at hx; cases hx
        · exact hm
      obtain ⟨e2, he2⟩ := ih hmem
      exact ⟨e2, by simp only [he2]⟩

/-! ## The loaders: lemmas -/

section LoaderLemmas

variable {D Q : Type} (P : Platform D Q)

theorem parseWaypointForVer1_ok (line : Text) (h4 : (parseColumns line).length = 4)
    (hnum : ∀ c ∈ parseColumns line, ∃ v, P.stod c = .ok v) :
    ∃ w, parseWaypointForVer1 P line = .ok w := by
  unfold parseWaypointForVer1
  match hc : parseColumns line, h4 with
  | [a, b, c, d], _ =>
    rw [hc] at hnum
    obtain ⟨va, ha⟩ := hnum a (by simp)
    obtain ⟨vb, hb⟩ := hnum b (by simp)
    obtain ⟨vc, hc'⟩ := hnum c (by simp)
    obtain ⟨vd, hd⟩ := hnum d (by simp)
    simp [index, Except.bind, ha, hb, hc', hd, bind, pure, Except.pure]


theorem headed_zero (pts : List (Waypoint D Q)) : headed P 0 pts = pts := by
  apply List.ext_getElem?
  intro j
  simp [headed]

theorem headingStep_headed (pts : List (Waypoint D Q)) (k : Nat) (hk : k + 1 < pts.length) :
    headingStep P (sizeMinusOne pts.length) (headed P k pts) k = .ok (headed P (k + 1) pts) := by
  have hlast : k ≠ sizeMinusOne pts.length := by
    unfold sizeMinusOne
    split_ifs with h0 <;> omega
  have hk0 : k < pts.length := by omega
  have h1 : (headed P k pts)[k + 1]? = some pts[k + 1] := by
    simp [headed, List.getElem?_eq_getElem hk]
  have h0 : (headed P k pts)[k]? = some pts[k] := by
    simp [headed, List.getElem?_eq_getElem hk0]
  unfold headingStep
  simp only [hlast, ne_eq, not_false_eq_true, if_true, vectorAt, h1, h0]
  show Except.ok _ = Except.ok _
  congr 1
  apply List.ext_getElem?
  intro j
  rw [List.getElem?_set]
  by_cases hj : k = j
  · subst hj
    simp [headed, yawQ, List.getElem?_eq_getElem hk, List.getElem?_eq_getElem hk0, hk0]
  · simp only [hj, if_false]
    simp only [headed, List.getElem?_mapIdx]
    cases pts[j]? with
    | none => rfl
    | some w =>
      simp only [Option.map_some']
      by_cases hjk : j < k
      · have : j < k + 1 := by omega
        simp [hjk, this]
      · have : ¬ j < k + 1 := by omega
        simp [hjk, this]

theorem foldlM_headed (pts : List (Waypoint D Q)) (k : Nat) (hk : k + 1 ≤ pts.length) :
    (List.range k).foldlM (headingStep P (sizeMinusOne pts.length)) pts
      = .ok (headed P k pts) := by
  induction k with
  | zero => simp [headed_zero]; rfl
  | succ k ih =>
    rw [List.range_succ, List.foldlM_append, ih (by omega)]
    show List.foldlM (headingStep P (sizeMinusOne pts.length)) (headed P k pts) [k] = _
    rw [List.foldlM_cons, headingStep_headed P pts k (by omega)]
    rfl

theorem headingPass_eq (pts : List (Waypoint D Q)) (hn : 2 ≤ pts.length) :
    headingPass P pts =
      .ok (pts.mapIdx (fun j w =>
        { w with orientation := yawQ P pts (min j (pts.length - 2)) })) := by
  unfold headingPass
  obtain ⟨n, hn2⟩ : ∃ n, pts.length = n + 2 := ⟨pts.length - 2, by omega⟩
  rw [hn2, List.range_succ, List.foldlM_append, ← hn2, foldlM_headed P pts (n + 1) (by omega)]
  show List.foldlM (headingStep P (sizeMinusOne pts.length)) (headed P (n + 1) pts) [n + 1] = _
  rw [List.foldlM_cons]
  have hlast : sizeMinusOne pts.length = n + 1 := by
    unfold sizeMinusOne; split_ifs with h0 <;> omega
  have hprev : sizeMinusOne (n + 1) = n := by
    unfold sizeMinusOne; simp
  have hn0 : n < pts.length := by omega
  have hn1 : n + 1 < pts.length := by omega
  have h0 : (headed P (n + 1) pts)[n]? = some { pts[n] with orientation := yawQ P pts n } := by
    simp [headed, List.getElem?_eq_getElem hn0]
  have h1 : (headed P (n + 1) pts)[n + 1]? = some pts[n + 1] := by
    simp [headed, List.getElem?_eq_getElem hn1]
  unfold headingStep
  simp only [hlast, ne_eq, not_true_eq_false, if_false, vectorAt, hprev, h0, h1]
  show Except.ok _ = Except.ok _
  congr 1
  apply List.ext_getElem?
  intro j
  rw [List.getElem?_set]
  by_cases hj : n + 1 = j
  · subst hj
    simp [headed, List.getElem?_eq_getElem hn1, hn2]
  · simp only [hj, if_false]
    simp only [headed, List.getElem?_mapIdx]
    cases hw : pts[j]? with
    | none => rfl
    | some w =>
      have hjl : j < pts.length := by
        by_contra hc
        rw [List.getElem?_eq_none (by omega)] at hw
        cases hw
      have hjn : j < n + 1 := by omega
      have hmin : min j (pts.length - 2) = j := by omega
      simp [hjn, hmin]


theorem mapFind_mapAssign (m : StringMap) (k v key : Text) :
    mapFind (mapAssign m k v) key = if k = key then some v else mapFind m key := by
  induction m with
  | nil => simp [mapAssign, mapFind]
  | cons kv rest ih =>
    obtain ⟨k', v'⟩ := kv
    by_cases h : k' = k
    · subst h
      by_cases h2 : k' = key <;> simp [mapAssign, mapFind, h2]
    · by_cases h2 : k' = key
      · subst h2
        simp [mapAssign, mapFind, h, Ne.symm h]
      · simp [mapAssign, mapFind, h, h2, ih]

theorem mapIndex_fst (m : StringMap) (k : Text) :
    (mapIndex m k).1 = (mapFind m k).getD [] := by
  unfold mapIndex
  cases mapFind m k <;> rfl

theorem mapFind_mapIndex (m : StringMap) (k key : Text) (h : k ≠ key) :
    mapFind (mapIndex m k).2 key = mapFind m key := by
  unfold mapIndex
  cases hk : mapFind m k with
  | some v => rfl
  | none => simp [mapFind_mapAssign, h]

theorem mapFind_fillMap (contents columns : List Text) (m m2 : StringMap) (key : Text)
    (h : fillMap contents columns m = .ok m2) (hkey : key ∉ contents) :
    mapFind m2 key = mapFind m key := by
  induction contents generalizing columns m with
  | nil => simp [fillMap] at h; rw [← h]
  | cons name contents ih =>
    cases columns with
    | nil => simp [fillMap] at h
    | cons column columns =>
      simp only [fillMap] at h
      rw [ih columns _ h (fun hc => hkey (List.mem_cons_of_mem _ hc)), mapFind_mapAssign]
      have : name ≠ key := fun hc => hkey (hc ▸ List.mem_cons_self _ _)
      simp [this]

theorem optionalState_congr (m1 m2 : StringMap) (key : Text)
    (h : mapFind m1 key = mapFind m2 key) : optionalState P m1 key = optionalState P m2 key := by
  unfold optionalState; rw [h]

theorem optionalState_mapIndex (m : StringMap) (k key : Text) (h : k ≠ key) :
    optionalState P (mapIndex m k).2 key = optionalState P m key :=
  optionalState_congr P _ _ key (mapFind_mapIndex m k key h)

theorem parseWaypointForVer3_eq (line : Text) (contents : List Text) :
    parseWaypointForVer3 P line contents = parseRow3 P line contents := by
  unfold parseWaypointForVer3 parseRow3
  dsimp only
  generalize fillMap contents (parseColumns line) [] = r
  cases r with
  | error e => rfl
  | ok m =>
    simp only [bind, Except.bind, mapIndex_fst]
    simp (disch := decide) only [mapFind_mapIndex, optionalState_mapIndex]

end LoaderLemmas

/-! ## Claims -/

/-- C10, as stated, fails: on the line `a<TAB>b` the code keeps the tab (it erases
only `' '`) and yields the one token `a<TAB>b`, where deleting every white-space
character yields `ab`. -/
theorem parseColumns_keeps_tab :
    parseColumns "a\tb".toList = ["a\tb".toList] ∧
      tokenizeSpec "a\tb".toList = ["ab".toList] ∧
      parseColumns "a\tb".toList ≠ tokenizeSpec "a\tb".toList := by
  decide

/-- C10, amended: for every line, `parseColumns` yields the parts of the split of
the line on `','`, each with every space character `' '` deleted, without the
parts that are then empty, in order; the empty line yields no token. -/
theorem parseColumns_eq_split (line : Text) :
    parseColumns line =
        ((line.splitOn ',').map (fun part => part.filter (fun c => c != ' '))).filter
          (fun part => !part.isEmpty) ∧
      parseColumns [] = [] := by
  refine ⟨?_, rfl⟩
  unfold parseColumns
  rcases splitOn_getlineAll ',' line with h | ⟨h, _⟩
  · rw [h]; simp [eraseSpaces]; rfl
  · rw [h]; rfl

/-- C1, as stated, fails: the file with the lines `x,y` and `,1,2` is detected as
`ver3`, its one data row has 2 tokens like its header, and the code rejects it,
because it compares `countColumns`, which is 3 for the row and 2 for the header. -/
theorem verifyFileConsistency_counts_raw :
    checkFileFormat (oneFile "x,y\n,1,2") "f".toList = .ok .ver3 ∧
      validateSpec .ver3 "x,y\n,1,2".toList = true ∧
      verifyFileConsistency (oneFile "x,y\n,1,2") "f".toList = .ok false := by
  decide

/-- C1, amended: for a readable file of detected format `T`, the validator returns,
and it returns true exactly when `T` is not `unknown` and every line after the
first has `countColumns` equal to the expected count: 4 for `ver1`, 5 for `ver2`,
`countColumns` of the first line for `ver3`. -/
theorem verifyFileConsistency_iff (fs : FileSystem) (filename content : Text)
    (T : FileFormat) (hfile : fs filename = some content)
    (hT : checkFileFormat fs filename = .ok T) :
    ∃ b, verifyFileConsistency fs filename = .ok b ∧
      (b = true ↔
        (T ≠ .unknown ∧
          ∀ line ∈ dataLines content,
            countColumns line =
              match T with
              | .ver1 => 4
              | .ver2 => 5
              | _ => countColumns (firstLine content))) := by
  unfold verifyFileConsistency
  rw [hfile]
  simp only [hT]
  cases T <;> simp [expectedColumns]

/-- C1, amended, at the file with the lines `0,0,0` and `1,2,3,4`. -/
theorem verifyFileConsistency_iff_witness :
    ∃ b, verifyFileConsistency (oneFile "0,0,0\n1,2,3,4") "f".toList = .ok b ∧
      (b = true ↔
        (FileFormat.ver1 ≠ .unknown ∧
          ∀ line ∈ dataLines "0,0,0\n1,2,3,4".toList,
            countColumns line =
              match FileFormat.ver1 with
              | .ver1 => 4
              | .ver2 => 5
              | _ => countColumns (firstLine "0,0,0\n1,2,3,4".toList))) :=
  verifyFileConsistency_iff (oneFile "0,0,0\n1,2,3,4") "f".toList "0,0,0\n1,2,3,4".toList
    .ver1 (by decide) (by decide)

/-- C2, as stated, fails: the first token `1.5` of the file with the line `1.5,2,3`
has a character that is not a decimal digit, and the code returns `ver1`, because
the token has a digit. -/
theorem checkFileFormat_digit_and_dot :
    parseColumns (firstLine "1.5,2,3".toList) = ["1.5".toList, "2".toList, "3".toList] ∧
      hasNonDigitSpec "1.5".toList = true ∧
      checkFileFormat (oneFile "1.5,2,3") "f".toList = .ok .ver1 := by
  decide

/-- C2, amended: for a readable file whose first line yields at least one token,
detection returns, and it returns `ver3` exactly when the first token has no
decimal digit. -/
theorem checkFileFormat_ver3_iff (fs : FileSystem) (filename content first : Text)
    (rest : List Text) (hfile : fs filename = some content)
    (htok : parseColumns (firstLine content) = first :: rest) :
    ∃ T, checkFileFormat fs filename = .ok T ∧
      (T = .ver3 ↔ ∀ c ∈ first, c.isDigit = false) := by
  unfold checkFileFormat
  rw [hfile]
  simp only [htok]
  by_cases h : first.any Char.isDigit = true
  · simp only [h, Bool.not_true, Bool.false_eq_true, if_false]
    refine ⟨_, rfl, ?_⟩
    constructor
    · intro hv; split_ifs at hv
    · intro hall
      obtain ⟨c, hc, hd⟩ := List.any_eq_true.mp h
      rw [hall c hc] at hd
      exact absurd hd (by decide)
  · refine ⟨.ver3, by simp [h], ?_⟩
    simp only [true_iff]
    intro c hc
    by_contra hd
    exact h (List.any_eq_true.mpr ⟨c, hc, by simpa using hd⟩)

/-- C2, amended, at the file with the line `1.5,2,3`. -/
theorem checkFileFormat_ver3_iff_witness :
    ∃ T, checkFileFormat (oneFile "1.5,2,3") "f".toList = .ok T ∧
      (T = .ver3 ↔ ∀ c ∈ "1.5".toList, c.isDigit = false) :=
  checkFileFormat_ver3_iff (oneFile "1.5,2,3") "f".toList "1.5,2,3".toList "1.5".toList
    ["2".toList, "3".toList] (by decide) (by decide)

/-- C3, as stated, fails: the first line `h` has no digit, so the file is detected
as `ver3` with one expected column, every data row has 5, and the route built for
the file is the empty route, not a route of 3 points. -/
theorem createLaneWaypoint_header_h :
    checkFileFormat (oneFile "h\n1,2,0,0.0,36\n2,2,0,0.0,36\n3,2,0,1.57,0") "f".toList
        = .ok .ver3 ∧
      createLaneWaypoint exact (oneFile "h\n1,2,0,0.0,36\n2,2,0,0.0,36\n3,2,0,1.57,0")
        "f".toList = .ok (Lane.init) ∧
      (Lane.init : Lane Val Heading).waypoints.length ≠ 3 := by
  decide

/-- C3, amended: with the first line `0,0,0,0`, which has a digit in its first token
and 4 fields as the detection of `ver2` requires, the three data rows build a route
of exactly 3 points in file order, with speeds 10, 10, 0 (the km/h value times 1000
over 3600) and headings made from the yaws 0.0, 0.0, 1.57. -/
theorem createLaneWaypoint_ver2_rows :
    createLaneWaypoint exact (oneFile "0,0,0,0\n1,2,0,0.0,36\n2,2,0,0.0,36\n3,2,0,1.57,0")
        "f".toList =
      .ok { frame_id := "/map".toList, stamp := 0, waypoints :=
        [{ Waypoint.init exact with
            x := .num 1, y := .num 2, z := .num 0, orientation := .yaw (.num 0),
            velocity := .num 10 },
         { Waypoint.init exact with
            x := .num 2, y := .num 2, z := .num 0, orientation := .yaw (.num 0),
            velocity := .num 10 },
         { Waypoint.init exact with
            x := .num 3, y := .num 2, z := .num 0, orientation := .yaw (.num (157 / 100)),
            velocity := .num 0 }] } := by
  with_unfolding_all rfl

/-- An `Except` value that is `ok` is the `ok` of some value. -/
theorem exists_ok_of_isOk {ε α : Type} (e : Except ε α) (h : e.isOk = true) : ∃ v, e = .ok v := by
  cases e with
  | error _ => cases h
  | ok v => exact ⟨v, rfl⟩

section ClaimsOnLoaders

variable {D Q : Type} (P : Platform D Q)

/-- C4, as stated, fails: the file with the lines `0,0,0`, `x,y,z,v`, `x,y,z,v` is
detected as `ver1`, passes validation and has two data rows of 4 tokens each, and
the `ver1` loader returns no point: `std::stod` raises on the token `x`. -/
theorem loadWaypointsForVer1_not_numeric :
    checkFileFormat (oneFile "0,0,0\nx,y,z,v\nx,y,z,v") "f".toList = .ok .ver1 ∧
      verifyFileConsistency (oneFile "0,0,0\nx,y,z,v\nx,y,z,v") "f".toList = .ok true ∧
      (dataLines "0,0,0\nx,y,z,v\nx,y,z,v".toList).length = 2 ∧
      (∀ line ∈ dataLines "0,0,0\nx,y,z,v\nx,y,z,v".toList, (parseColumns line).length = 4) ∧
      loadWaypointsForVer1 exact (oneFile "0,0,0\nx,y,z,v\nx,y,z,v") "f".toList
        = .error .invalid_argument := by
  decide

/-- C4, amended: for a file with `n ≥ 2` data rows that each have 4 tokens, every
token accepted by `std::stod`, the `ver1` loader returns `n` points; point `i` is
the point parsed from row `i` except for its orientation; for `i < n - 1` the
orientation of point `i` is made from the yaw `atan2(y[i+1] - y[i], x[i+1] - x[i])`
of the returned positions; the orientation of the last point is that of point
`n - 2`. -/
theorem loadWaypointsForVer1_headings (fs : FileSystem) (filename content : Text)
    (hfile : fs filename = some content)
    (hn : 2 ≤ (dataLines content).length)
    (h4 : ∀ line ∈ dataLines content, (parseColumns line).length = 4)
    (hnum : ∀ line ∈ dataLines content, ∀ c ∈ parseColumns line, ∃ v, P.stod c = .ok v) :
    ∃ wps, loadWaypointsForVer1 P fs filename = .ok wps ∧
      wps.length = (dataLines content).length ∧
      (∀ (i : Nat) (line : Text), (dataLines content)[i]? = some line →
        ∃ p w, parseWaypointForVer1 P line = .ok p ∧ wps[i]? = some w ∧
          w = { p with orientation := w.orientation }) ∧
      (∀ (i : Nat) (a b : Waypoint D Q), i + 1 < wps.length →
        wps[i]? = some a → wps[i + 1]? = some b →
        a.orientation =
          P.createQuaternionMsgFromYaw (P.atan2 (P.sub b.y a.y) (P.sub b.x a.x))) ∧
      (∀ a b : Waypoint D Q, wps[wps.length - 1]? = some a → wps[wps.length - 2]? = some b →
        a.orientation = b.orientation) := by
  obtain ⟨pts, hpts, hlen, hidx⟩ :=
    mapM_except_ok (parseWaypointForVer1 P) (dataLines content)
      (fun line hl => parseWaypointForVer1_ok P line (h4 line hl) (hnum line hl))
  have hn' : 2 ≤ pts.length := by omega
  refine ⟨pts.mapIdx (fun j w =>
    { w with orientation := yawQ P pts (min j (pts.length - 2)) }), ?_, ?_, ?_, ?_, ?_⟩
  · unfold loadWaypointsForVer1
    rw [hfile]
    show (List.mapM (parseWaypointForVer1 P) (dataLines content) >>= headingPass P) = _
    rw [hpts]
    exact headingPass_eq P pts hn'
  · simp [hlen]
  · intro i line hline
    obtain ⟨p, hp, hparse⟩ := hidx i line hline
    exact ⟨p, { p with orientation := yawQ P pts (min i (pts.length - 2)) }, hparse,
      by simp [hp], rfl⟩
  · intro i a b hi ha hb
    simp only [List.length_mapIdx] at hi
    have hi0 : i < pts.length := by omega
    simp only [List.getElem?_mapIdx, List.getElem?_eq_getElem hi0, List.getElem?_eq_getElem hi,
      Option.map_some', Option.some.injEq] at ha hb
    subst ha hb
    have hmin : min i (pts.length - 2) = i := by omega
    simp [hmin, yawQ, List.getElem?_eq_getElem hi0, List.getElem?_eq_getElem hi]
  · intro a b ha hb
    simp only [List.length_mapIdx] at ha hb
    have h1 : pts.length - 1 < pts.length := by omega
    have h2 : pts.length - 2 < pts.length := by omega
    simp only [List.getElem?_mapIdx, List.getElem?_eq_getElem h1, List.getElem?_eq_getElem h2,
      Option.map_some', Option.some.injEq] at ha hb
    subst ha hb
    have hmin : min (pts.length - 1) (pts.length - 2) = pts.length - 2 := by omega
    simp [hmin]

end ClaimsOnLoaders

/-- C4, amended, at the file with the lines `0,0,0`, `1,2,0,36`, `2,3,0,36`,
`3,2,0,0` on the exact platform. -/
theorem loadWaypointsForVer1_headings_witness :
    ∃ wps, loadWaypointsForVer1 exact (oneFile "0,0,0\n1,2,0,36\n2,3,0,36\n3,2,0,0")
        "f".toList = .ok wps ∧
      wps.length = (dataLines "0,0,0\n1,2,0,36\n2,3,0,36\n3,2,0,0".toList).length ∧
      (∀ (i : Nat) (line : Text),
        (dataLines "0,0,0\n1,2,0,36\n2,3,0,36\n3,2,0,0".toList)[i]? = some line →
        ∃ p w, parseWaypointForVer1 exact line = .ok p ∧ wps[i]? = some w ∧
          w = { p with orientation := w.orientation }) ∧
      (∀ (i : Nat) (a b : Waypoint Val Heading), i + 1 < wps.length →
        wps[i]? = some a → wps[i + 1]? = some b →
        a.orientation =
          exact.createQuaternionMsgFromYaw
            (exact.atan2 (exact.sub b.y a.y) (exact.sub b.x a.x))) ∧
      (∀ a b : Waypoint Val Heading,
        wps[wps.length - 1]? = some a → wps[wps.length - 2]? = some b →
        a.orientation = b.orientation) :=
  loadWaypointsForVer1_headings exact (oneFile "0,0,0\n1,2,0,36\n2,3,0,36\n3,2,0,0")
    "f".toList "0,0,0\n1,2,0,36\n2,3,0,36\n3,2,0,0".toList (by decide) (by decide) (by decide)
    (fun line hl c hc =>
      exists_ok_of_isOk _
        ((by decide : ∀ line ∈ dataLines "0,0,0\n1,2,0,36\n2,3,0,36\n3,2,0,0".toList,
            ∀ c ∈ parseColumns line, (exact.stod c).isOk = true) line hl c hc))


section ClaimsOnBuild

variable {D Q : Type} (P : Platform D Q)

/-- The optional fields of a parsed row are those `optionalState` reads from the
map filled from the header and the row. -/
theorem parseWaypointForVer3_optional (line : Text) (contents : List Text)
    (w : Waypoint D Q) (h : parseWaypointForVer3 P line contents = .ok w) :
    ∃ m, fillMap contents (parseColumns line) [] = .ok m ∧
      optionalState P m "steering_flag".toList = .ok w.steering_state ∧
      optionalState P m "accel_flag".toList = .ok w.accel_state ∧
      optionalState P m "stop_flag".toList = .ok w.stopline_state ∧
      optionalState P m "event_flag".toList = .ok w.event_state := by
  rw [parseWaypointForVer3_eq] at h
  unfold parseRow3 at h
  cases hfill : fillMap contents (parseColumns line) [] with
  | error e => rw [hfill] at h; cases h
  | ok m =>
    rw [hfill] at h
    simp only [bind, Except.bind] at h
    refine ⟨m, rfl, ?_⟩
    repeat' (split at h)
    all_goals cases h
    all_goals simp_all

/-- An optional field read from a map without its key is 0. -/
theorem optionalState_absent (m : StringMap) (key : Text) (n : Nat)
    (hnone : mapFind m key = none) (h : optionalState P m key = .ok n) : n = 0 := by
  unfold optionalState at h
  rw [hnone] at h
  cases h
  rfl

/-- The validator on a readable file of detected format `ver3`. -/
theorem verifyFileConsistency_ver3 (fs : FileSystem) (file_path content : Text)
    (hfile : fs file_path = some content) (hfmt : checkFileFormat fs file_path = .ok .ver3) :
    verifyFileConsistency fs file_path =
      .ok ((dataLines content).all
        (fun line => countColumns line == countColumns (firstLine content))) := by
  unfold verifyFileConsistency
  rw [hfile]
  simp only [hfmt]
  simp [expectedColumns]

/-- C7: for a file the `ver3` loader parses, each of the names `steering_flag`,
`accel_flag`, `stop_flag`, `event_flag` that is no token of the header leaves the
field `steering_state`, `accel_state`, `stopline_state`, `event_state` of every
parsed point at 0. -/
theorem loadWaypointsForVer3_optional_default (fs : FileSystem) (filename content : Text)
    (wps : List (Waypoint D Q)) (hfile : fs filename = some content)
    (hload : loadWaypointsForVer3 P fs filename = .ok wps) :
    ("steering_flag".toList ∉ parseColumns (firstLine content) →
        ∀ w ∈ wps, w.steering_state = 0) ∧
      ("accel_flag".toList ∉ parseColumns (firstLine content) →
        ∀ w ∈ wps, w.accel_state = 0) ∧
      ("stop_flag".toList ∉ parseColumns (firstLine content) →
        ∀ w ∈ wps, w.stopline_state = 0) ∧
      ("event_flag".toList ∉ parseColumns (firstLine content) →
        ∀ w ∈ wps, w.event_state = 0) := by
  unfold loadWaypointsForVer3 at hload
  rw [hfile] at hload
  have hrow : ∀ w ∈ wps, ∃ m line,
      fillMap (parseColumns (firstLine content)) (parseColumns line) [] = .ok m ∧
      optionalState P m "steering_flag".toList = .ok w.steering_state ∧
      optionalState P m "accel_flag".toList = .ok w.accel_state ∧
      optionalState P m "stop_flag".toList = .ok w.stopline_state ∧
      optionalState P m "event_flag".toList = .ok w.event_state := by
    intro w hw
    obtain ⟨line, _, hparse⟩ := mapM_except_mem _ _ wps hload w hw
    obtain ⟨m, hm, h⟩ := parseWaypointForVer3_optional P line _ w hparse
    exact ⟨m, line, hm, h⟩
  refine ⟨?_, ?_, ?_, ?_⟩ <;> intro habs w hw <;>
    obtain ⟨m, line, hm, h1, h2, h3, h4⟩ := hrow w hw <;>
    have hnone := mapFind_fillMap _ _ [] m _ hm habs
  · exact optionalState_absent P m _ _ hnone h1
  · exact optionalState_absent P m _ _ hnone h2
  · exact optionalState_absent P m _ _ hnone h3
  · exact optionalState_absent P m _ _ hnone h4

/-- The route built for a file the validator rejects is the empty route. -/
theorem createLaneWaypoint_rejected (fs : FileSystem) (file_path : Text)
    (h : verifyFileConsistency fs file_path = .ok false) :
    createLaneWaypoint P fs file_path = .ok (Lane.init) := by
  unfold createLaneWaypoint
  rw [h]
  rfl

/-- The validator rejects a file that cannot be opened. -/
theorem verifyFileConsistency_unreadable (fs : FileSystem) (file_path : Text)
    (h : fs file_path = none) : verifyFileConsistency fs file_path = .ok false := by
  unfold verifyFileConsistency
  rw [h]

/-- The validator rejects a file of unknown format. -/
theorem verifyFileConsistency_unknown (fs : FileSystem) (file_path : Text)
    (h : checkFileFormat fs file_path = .ok .unknown) :
    verifyFileConsistency fs file_path = .ok false := by
  unfold verifyFileConsistency
  cases hf : fs file_path with
  | none => rfl
  | some content => simp [h]

/-- C5, as stated, fails: in the batch of the file `a` with the lines `x,y` and
`1,2`, which lacks required names, and the file `b` with the lines `0,0,0,0` and
`1,2,0,0.0,36`, which builds a route of one point, `createLaneArray` returns no
collection: the fault raised for `a` ends the batch. -/
theorem createLaneArray_aborts :
    createLaneWaypoint exact (twoFiles "x,y\n1,2" "0,0,0,0\n1,2,0,0.0,36") "a".toList
        = .error .invalid_argument ∧
      createLaneWaypoint exact (twoFiles "x,y\n1,2" "0,0,0,0\n1,2,0,0.0,36") "b".toList
        = .ok { frame_id := "/map".toList, stamp := 0, waypoints :=
          [{ Waypoint.init exact with
              x := .num 1, y := .num 2, z := .num 0, orientation := .yaw (.num 0),
              velocity := .num 10 }] } ∧
      createLaneArray exact false id (twoFiles "x,y\n1,2" "0,0,0,0\n1,2,0,0.0,36")
        ["a".toList, "b".toList] = .error .invalid_argument := by
  refine ⟨by decide, by with_unfolding_all rfl, by decide⟩

/-- When no file of the list raises in `createLaneWaypoint`, `createLaneArray`
returns one lane per path, in path order, and the lane at the slot of a rejected
file has no waypoint. -/
theorem createLaneArray_returns (replanning_mode : Bool) (replan : Lane D Q → Lane D Q)
    (fs : FileSystem) (paths : List Text)
    (hreplan : ∀ lane : Lane D Q, lane.waypoints = [] → (replan lane).waypoints = [])
    (hok : ∀ p ∈ paths, ∃ lane, createLaneWaypoint P fs p = .ok lane) :
    ∃ lanes, createLaneArray P replanning_mode replan fs paths = .ok lanes ∧
      lanes.length = paths.length ∧
      (∀ (i : Nat) (p : Text), paths[i]? = some p →
        ∃ built, createLaneWaypoint P fs p = .ok built ∧
          lanes[i]? = some (if replanning_mode then replan built else built)) ∧
      (∀ (i : Nat) (p : Text), paths[i]? = some p →
        (fs p = none ∨ checkFileFormat fs p = .ok .unknown ∨
          verifyFileConsistency fs p = .ok false) →
        ∃ lane, lanes[i]? = some lane ∧ lane.waypoints = []) := by
  have hstep : ∀ p ∈ paths, ∃ lane,
      (do
        let lane ← createLaneWaypoint P fs p
        pure (if replanning_mode then replan lane else lane) : Except Fault (Lane D Q))
        = .ok lane := by
    intro p hp
    obtain ⟨lane, hl⟩ := hok p hp
    exact ⟨_, by rw [hl]; rfl⟩
  obtain ⟨lanes, hlanes, hlen, hidx⟩ := mapM_except_ok _ paths hstep
  have hslot : ∀ (i : Nat) (p : Text), paths[i]? = some p →
      ∃ built, createLaneWaypoint P fs p = .ok built ∧
        lanes[i]? = some (if replanning_mode then replan built else built) := by
    intro i p hp
    obtain ⟨lane, hlane, hrun⟩ := hidx i p hp
    obtain ⟨built, hb⟩ := hok p (List.getElem?_mem hp)
    rw [hb] at hrun
    cases hrun
    exact ⟨built, hb, hlane⟩
  refine ⟨lanes, hlanes, hlen, hslot, ?_⟩
  intro i p hp hrej
  have hv : verifyFileConsistency fs p = .ok false := by
    rcases hrej with h | h | h
    · exact verifyFileConsistency_unreadable fs p h
    · exact verifyFileConsistency_unknown fs p h
    · exact h
  obtain ⟨built, hb, hlane⟩ := hslot i p hp
  rw [createLaneWaypoint_rejected P fs p hv] at hb
  cases hb
  refine ⟨_, hlane, ?_⟩
  cases replanning_mode
  · rfl
  · exact hreplan _ rfl

/-- `createLaneArray` raises the fault of the first file that raises in
`createLaneWaypoint`. -/
theorem createLaneArray_first_fault (replanning_mode : Bool) (replan : Lane D Q → Lane D Q)
    (fs : FileSystem) (pre post : List Text) (p : Text) (e : Fault)
    (hpre : ∀ q ∈ pre, ∃ lane, createLaneWaypoint P fs q = .ok lane)
    (hp : createLaneWaypoint P fs p = .error e) :
    createLaneArray P replanning_mode replan fs (pre ++ p :: post) = .error e := by
  unfold createLaneArray
  apply mapM_except_first_error
  · intro q hq
    obtain ⟨lane, hl⟩ := hpre q hq
    exact ⟨_, by rw [hl]; rfl⟩
  · rw [hp]; rfl

/-- `createLaneArray` raises when `createLaneWaypoint` raises for a file of the
list. -/
theorem createLaneArray_raises (replanning_mode : Bool) (replan : Lane D Q → Lane D Q)
    (fs : FileSystem) (paths : List Text) (p : Text) (e : Fault) (hmem : p ∈ paths)
    (hp : createLaneWaypoint P fs p = .error e) :
    ∃ e2, createLaneArray P replanning_mode replan fs paths = .error e2 := by
  unfold createLaneArray
  exact mapM_except_raises _ paths p e hmem (by rw [hp]; rfl)

/-- C5, amended: with a replanner that keeps a lane without waypoints without
waypoints: when no file of the list raises in `createLaneWaypoint`,
`createLaneArray` returns one lane per path, in path order, the lane built for the
path, replanned when replanning is on, and the lane at the slot of a file that
cannot be opened, is of unknown format or is rejected by the validator has no
waypoint; when `createLaneWaypoint` raises for a file of the list,
`createLaneArray` raises, with the fault of the first such file, and returns no
collection. -/
theorem createLaneArray_slots (replanning_mode : Bool) (replan : Lane D Q → Lane D Q)
    (fs : FileSystem) (paths : List Text)
    (hreplan : ∀ lane : Lane D Q, lane.waypoints = [] → (replan lane).waypoints = []) :
    ((∀ p ∈ paths, ∃ lane, createLaneWaypoint P fs p = .ok lane) →
      ∃ lanes, createLaneArray P replanning_mode replan fs paths = .ok lanes ∧
        lanes.length = paths.length ∧
        (∀ (i : Nat) (p : Text), paths[i]? = some p →
          ∃ built, createLaneWaypoint P fs p = .ok built ∧
            lanes[i]? = some (if replanning_mode then replan built else built)) ∧
        (∀ (i : Nat) (p : Text), paths[i]? = some p →
          (fs p = none ∨ checkFileFormat fs p = .ok .unknown ∨
            verifyFileConsistency fs p = .ok false) →
          ∃ lane, lanes[i]? = some lane ∧ lane.waypoints = [])) ∧
      (∀ p ∈ paths, ∀ e, createLaneWaypoint P fs p = .error e →
        ∃ e2, createLaneArray P replanning_mode replan fs paths = .error e2) ∧
      (∀ (pre post : List Text) (p : Text) (e : Fault), paths = pre ++ p :: post →
        (∀ q ∈ pre, ∃ lane, createLaneWaypoint P fs q = .ok lane) →
        createLaneWaypoint P fs p = .error e →
        createLaneArray P replanning_mode replan fs paths = .error e) := by
  refine ⟨createLaneArray_returns P replanning_mode replan fs paths hreplan, ?_, ?_⟩
  · intro p hp e he
    exact createLaneArray_raises P replanning_mode replan fs paths p e hp he
  · intro pre post p e hpaths hpre he
    rw [hpaths]
    exact createLaneArray_first_fault P replanning_mode replan fs pre post p e hpre he

end ClaimsOnBuild

/-- C5, amended, at the batch of a file that cannot be opened and the file with the
lines `0,0,0,0` and `1,2,0,0.0,36`, replanning off. -/
theorem createLaneArray_slots_witness :
    ∃ lanes, createLaneArray exact false id (oneFile "0,0,0,0\n1,2,0,0.0,36")
        ["g".toList, "f".toList] = .ok lanes ∧
      lanes.length = ["g".toList, "f".toList].length ∧
      (∀ (i : Nat) (p : Text), ["g".toList, "f".toList][i]? = some p →
        ∃ built, createLaneWaypoint exact (oneFile "0,0,0,0\n1,2,0,0.0,36") p = .ok built ∧
          lanes[i]? = some (if false = true then id built else built)) ∧
      (∀ (i : Nat) (p : Text), ["g".toList, "f".toList][i]? = some p →
        (oneFile "0,0,0,0\n1,2,0,0.0,36" p = none ∨
          checkFileFormat (oneFile "0,0,0,0\n1,2,0,0.0,36") p = .ok .unknown ∨
          verifyFileConsistency (oneFile "0,0,0,0\n1,2,0,0.0,36") p = .ok false) →
        ∃ lane, lanes[i]? = some lane ∧ lane.waypoints = []) :=
  (createLaneArray_slots exact false id (oneFile "0,0,0,0\n1,2,0,0.0,36")
    ["g".toList, "f".toList] (fun _ h => h)).1
    (by
      intro p hp
      simp only [List.mem_cons, List.mem_singleton, List.not_mem_nil, or_false] at hp
      rcases hp with rfl | rfl
      · exact ⟨Lane.init, by decide⟩
      · exact ⟨{ frame_id := "/map".toList, stamp := 0, waypoints :=
            [{ Waypoint.init exact with
                x := .num 1, y := .num 2, z := .num 0, orientation := .yaw (.num 0),
                velocity := .num 10 }] },
          by with_unfolding_all rfl⟩)

/-- C7, at the file with the lines `x,y,z,yaw,velocity,change_flag` and
`1,2,3,4,5,6`, which the loader parses to one point. -/
theorem loadWaypointsForVer3_optional_default_witness :
    ("steering_flag".toList ∉
          parseColumns (firstLine "x,y,z,yaw,velocity,change_flag\n1,2,3,4,5,6".toList) →
        ∀ w ∈ [({ Waypoint.init exact with
            x := .num 1, y := .num 2, z := .num 3, orientation := .yaw (.num 4),
            velocity := .num (25 / 18), change_flag := 6 } : Waypoint Val Heading)],
          w.steering_state = 0) ∧
      ("accel_flag".toList ∉
          parseColumns (firstLine "x,y,z,yaw,velocity,change_flag\n1,2,3,4,5,6".toList) →
        ∀ w ∈ [({ Waypoint.init exact with
            x := .num 1, y := .num 2, z := .num 3, orientation := .yaw (.num 4),
            velocity := .num (25 / 18), change_flag := 6 } : Waypoint Val Heading)],
          w.accel_state = 0) ∧
      ("stop_flag".toList ∉
          parseColumns (firstLine "x,y,z,yaw,velocity,change_flag\n1,2,3,4,5,6".toList) →
        ∀ w ∈ [({ Waypoint.init exact with
            x := .num 1, y := .num 2, z := .num 3, orientation := .yaw (.num 4),
            velocity := .num (25 / 18), change_flag := 6 } : Waypoint Val Heading)],
          w.stopline_state = 0) ∧
      ("event_flag".toList ∉
          parseColumns (firstLine "x,y,z,yaw,velocity,change_flag\n1,2,3,4,5,6".toList) →
        ∀ w ∈ [({ Waypoint.init exact with
            x := .num 1, y := .num 2, z := .num 3, orientation := .yaw (.num 4),
            velocity := .num (25 / 18), change_flag := 6 } : Waypoint Val Heading)],
          w.event_state = 0) :=
  loadWaypointsForVer3_optional_default exact
    (oneFile "x,y,z,yaw,velocity,change_flag\n1,2,3,4,5,6") "f".toList
    "x,y,z,yaw,velocity,change_flag\n1,2,3,4,5,6".toList _ (by decide)
    (by with_unfolding_all rfl)

/-! ## Path suffix: lemmas and claim -/

theorem findLastOf_of_not_mem (s : Text) (c : Char) (h : c ∉ s) : findLastOf s c = none := by
  induction s with
  | nil => rfl
  | cons x xs ih =>
    have hx : x ≠ c := fun hc => h (hc ▸ List.mem_cons_self _ _)
    simp [findLastOf, ih (fun hc => h (List.mem_cons_of_mem _ hc)), hx]

theorem findLastOf_append (stem ext : Text) (c : Char) (h : c ∉ ext) :
    findLastOf (stem ++ c :: ext) c = some stem.length := by
  induction stem with
  | nil => simp [findLastOf, findLastOf_of_not_mem ext c h]
  | cons x xs ih => simp [findLastOf, ih]

theorem exists_last_split (c : Char) (s : Text) (h : c ∈ s) :
    ∃ pre post, s = pre ++ c :: post ∧ c ∉ post := by
  induction s with
  | nil => cases h
  | cons x xs ih =>
    by_cases hc : c ∈ xs
    · obtain ⟨pre, post, hs, hp⟩ := ih hc
      exact ⟨x :: pre, post, by rw [hs]; rfl, hp⟩
    · rcases List.mem_cons.mp h with rfl | h2
      · exact ⟨[], xs, rfl, hc⟩
      · exact absurd h2 hc

/-- The string `tmp` of `addFileSuffix` for a path and the rest of the function for
a path and its `tmp`. -/
theorem addFileSuffix_unfold (file_path suffix : Text) :
    addFileSuffix file_path suffix =
      match (match findLastOf file_path '/' with
            | some i => stringErase file_path 0 i
            | none => Except.ok file_path) with
      | .error e => .error e
      | .ok tmp =>
        if findLastOf tmp '.' ≠ none ∧
            findLastOf tmp '.' ≠ some (sizeMinusOne tmp.length) then
          match findLastOf file_path '.' with
          | some j =>
            match stringErase file_path j (sizeMinusOne file_path.length) with
            | .error e => .error e
            | .ok fp => .ok (fp ++ (suffix ++ ".csv".toList))
          | none => .error .out_of_range
        else .ok (file_path ++ (suffix ++ ".csv".toList)) := by
  unfold addFileSuffix
  simp only [bind, Except.bind, pure, Except.pure]
  cases findLastOf file_path '/' with
  | none =>
    simp only
    split_ifs
    · cases findLastOf file_path '.' with
      | none => rfl
      | some j => simp only; cases stringErase file_path j (sizeMinusOne file_path.length) <;> rfl
    · rfl
  | some i =>
    simp only
    cases stringErase file_path 0 i with
    | error e => rfl
    | ok tmp =>
      simp only
      split_ifs
      · cases findLastOf file_path '.' with
        | none => rfl
        | some j =>
          simp only; cases stringErase file_path j (sizeMinusOne file_path.length) <;> rfl
      · rfl

theorem addFileSuffix_tmp_no_slash (path : Text) (h : '/' ∉ path) :
    (match findLastOf path '/' with
      | some i => stringErase path 0 i
      | none => Except.ok path) = .ok path := by
  rw [findLastOf_of_not_mem path '/' h]

theorem addFileSuffix_tmp_slash (dir seg : Text) (h : '/' ∉ seg) :
    (match findLastOf (dir ++ '/' :: seg) '/' with
      | some i => stringErase (dir ++ '/' :: seg) 0 i
      | none => Except.ok (dir ++ '/' :: seg)) = .ok ('/' :: seg) := by
  rw [findLastOf_append dir seg '/' h]
  simp [stringErase]

/-- The last `'.'` of a string without `'.'`, or ending in `'.'`, is `npos` or the
last index. -/
theorem findLastOf_dot_keep (tmp : Text) (h : '.' ∉ tmp ∨ tmp.getLast? = some '.') :
    ¬ (findLastOf tmp '.' ≠ none ∧ findLastOf tmp '.' ≠ some (sizeMinusOne tmp.length)) := by
  rcases h with h | h
  · simp [findLastOf_of_not_mem tmp '.' h]
  · obtain ⟨init, rfl⟩ : ∃ init, tmp = init ++ ['.'] := by
      rcases List.getLast?_eq_some_iff.mp h with ⟨init, hi⟩
      exact ⟨init, hi⟩
    rw [findLastOf_append init [] '.' (by simp)]
    simp [sizeMinusOne]

/-- The extension of `stem.ext` is erased when `stem` is not empty. -/
theorem stringErase_ext (stem ext : Text) (hstem : stem ≠ []) :
    stringErase (stem ++ '.' :: ext) stem.length (sizeMinusOne (stem ++ '.' :: ext).length)
      = .ok stem := by
  have hpos : 0 < stem.length := List.length_pos.mpr hstem
  unfold stringErase sizeMinusOne
  have h1 : ¬ stem.length > (stem ++ '.' :: ext).length := by simp
  have h2 : (stem ++ '.' :: ext).length ≠ 0 := by simp
  simp only [h1, h2, if_false]
  have hmin : min ((stem ++ '.' :: ext).length - 1) ((stem ++ '.' :: ext).length - stem.length)
      = ext.length + 1 := by
    simp only [List.length_append, List.length_cons]; omega
  rw [hmin]
  have hdrop : List.drop (stem.length + (ext.length + 1)) (stem ++ '.' :: ext) = [] := by
    apply List.drop_eq_nil_of_le
    simp only [List.length_append, List.length_cons]; omega
  rw [hdrop]
  simp

/-- C9, as stated, fails: the final segment `a.b.` has a `'.'` that is not its last
character, so the stated stem is `a.b`; the code tests only the last `'.'`, which
is the last character, and keeps the whole path. -/
theorem addFileSuffix_trailing_dot :
    '.' ∈ (finalSegmentSpec "a.b.".toList).dropLast ∧
      suffixPathSpec "a.b.".toList "_replanned".toList = "a.b_replanned.csv".toList ∧
      addFileSuffix "a.b.".toList "_replanned".toList = .ok "a.b._replanned.csv".toList := by
  decide

/-- C9, amended: with `seg` the final segment of the path (the path itself, or what
follows its last `'/'`): when `seg` has no `'.'` or ends in `'.'`, the result is the
path, the suffix and `.csv`; when the path is `stem.ext` with `ext` not empty and
free of `'.'` and `'/'` and `stem` not empty, the result is `stem`, the suffix and
`.csv`; the three examples of the specification hold. -/
theorem addFileSuffix_stem :
    (∀ seg suffix : Text, '/' ∉ seg → ('.' ∉ seg ∨ seg.getLast? = some '.') →
        addFileSuffix seg suffix = .ok (seg ++ suffix ++ ".csv".toList)) ∧
      (∀ dir seg suffix : Text, '/' ∉ seg → ('.' ∉ seg ∨ seg.getLast? = some '.') →
        addFileSuffix (dir ++ '/' :: seg) suffix
          = .ok (dir ++ '/' :: seg ++ suffix ++ ".csv".toList)) ∧
      (∀ stem ext suffix : Text, stem ≠ [] → ext ≠ [] → '.' ∉ ext → '/' ∉ ext →
        addFileSuffix (stem ++ '.' :: ext) suffix = .ok (stem ++ suffix ++ ".csv".toList)) ∧
      addFileSuffix "a/b.c.csv".toList "_replanned".toList
        = .ok "a/b.c_replanned.csv".toList ∧
      addFileSuffix "a/b".toList "_replanned".toList = .ok "a/b_replanned.csv".toList ∧
      addFileSuffix "a.b/c".toList "_replanned".toList = .ok "a.b/c_replanned.csv".toList := by
  refine ⟨?_, ?_, ?_, by decide, by decide, by decide⟩
  · intro seg suffix hs hd
    rw [addFileSuffix_unfold, addFileSuffix_tmp_no_slash seg hs]
    simp only [findLastOf_dot_keep seg hd, if_false, List.append_assoc]
  · intro dir seg suffix hs hd
    rw [addFileSuffix_unfold, addFileSuffix_tmp_slash dir seg hs]
    have hd2 : '.' ∉ ('/' :: seg) ∨ ('/' :: seg).getLast? = some '.' := by
      rcases hd with h | h
      · left
        simp only [List.mem_cons, not_or]
        exact ⟨by decide, h⟩
      · right
        cases seg with
        | nil => simp at h
        | cons x xs => simpa [List.getLast?_cons_cons] using h
    simp only [findLastOf_dot_keep _ hd2, if_false, List.append_assoc, List.cons_append]
  · intro stem ext suffix hstem hext hdot hslash
    rw [addFileSuffix_unfold]
    have hlen : 0 < ext.length := List.length_pos.mpr hext
    have herase := stringErase_ext stem ext hstem
    have hall : findLastOf (stem ++ '.' :: ext) '.' = some stem.length :=
      findLastOf_append stem ext '.' hdot
    by_cases hin : '/' ∈ stem
    · obtain ⟨dir, seg, hsplit, hseg⟩ := exists_last_split '/' stem hin
      have hpath : stem ++ '.' :: ext = dir ++ '/' :: (seg ++ '.' :: ext) := by
        rw [hsplit]; simp
      have hseg2 : '/' ∉ seg ++ '.' :: ext := by
        simp only [List.mem_append, List.mem_cons, not_or]
        exact ⟨hseg, by decide, hslash⟩
      have htmp := addFileSuffix_tmp_slash dir (seg ++ '.' :: ext) hseg2
      rw [← hpath] at htmp
      rw [htmp]
      have hdot2 : findLastOf ('/' :: (seg ++ '.' :: ext)) '.' = some (seg.length + 1) := by
        have := findLastOf_append ('/' :: seg) ext '.' hdot
        simpa using this
      have hcond : findLastOf ('/' :: (seg ++ '.' :: ext)) '.' ≠ none ∧
          findLastOf ('/' :: (seg ++ '.' :: ext)) '.'
            ≠ some (sizeMinusOne ('/' :: (seg ++ '.' :: ext)).length) := by
        rw [hdot2]
        refine ⟨by simp, ?_⟩
        simp only [sizeMinusOne, List.length_cons, List.length_append, ne_eq,
          Option.some.injEq]
        rw [if_neg (by omega)]
        omega
      dsimp only
      rw [if_pos hcond]
      simp only [hall, herase, List.append_assoc]
    · have hno : '/' ∉ stem ++ '.' :: ext := by
        simp only [List.mem_append, List.mem_cons, not_or]
        exact ⟨hin, by decide, hslash⟩
      rw [addFileSuffix_tmp_no_slash _ hno]
      have hcond : findLastOf (stem ++ '.' :: ext) '.' ≠ none ∧
          findLastOf (stem ++ '.' :: ext) '.'
            ≠ some (sizeMinusOne (stem ++ '.' :: ext).length) := by
        rw [hall]
        refine ⟨by simp, ?_⟩
        simp only [sizeMinusOne, List.length_cons, List.length_append, ne_eq,
          Option.some.injEq]
        rw [if_neg (by omega)]
        omega
      dsimp only
      rw [if_pos hcond]
      simp only [hall, herase, List.append_assoc]

/-- C9, amended, at the path `a/b.c.csv`, which is `a/b.c` and the extension `csv`. -/
theorem addFileSuffix_stem_witness :
    addFileSuffix ("a/b.c".toList ++ '.' :: "csv".toList) "_replanned".toList
      = .ok ("a/b.c".toList ++ "_replanned".toList ++ ".csv".toList) :=
  addFileSuffix_stem.2.2.1 "a/b.c".toList "csv".toList "_replanned".toList
    (by decide) (by decide) (by decide) (by decide)

/-- The path `.ab`, whose last `'.'` is its first character: `erase(0, size - 1)`
leaves the last character. -/
theorem addFileSuffix_leading_dot :
    addFileSuffix ".ab".toList "_replanned".toList = .ok "b_replanned.csv".toList := by
  decide

/-! ## Claims on detection, validation and the column primitives -/

/-- Detection raises for every readable file whose first line has no token. -/
theorem checkFileFormat_raises (fs : FileSystem) (filename content : Text)
    (hfile : fs filename = some content) (htok : parseColumns (firstLine content) = []) :
    checkFileFormat fs filename = .error .out_of_range := by
  unfold checkFileFormat
  rw [hfile]
  simp only [htok]

/-- The heading loop raises on every sequence of one waypoint. -/
theorem headingPass_single {D Q : Type} (P : Platform D Q) (w : Waypoint D Q) :
    headingPass P [w] = .error .out_of_range := by
  simp [headingPass, List.range_succ, headingStep, sizeMinusOne, vectorAt, bind, Except.bind]

/-- The `ver1` loader raises for every file with one data row that parses. -/
theorem loadWaypointsForVer1_one_row {D Q : Type} (P : Platform D Q) (fs : FileSystem)
    (filename content row : Text) (w : Waypoint D Q) (hfile : fs filename = some content)
    (hrows : dataLines content = [row]) (hparse : parseWaypointForVer1 P row = .ok w) :
    loadWaypointsForVer1 P fs filename = .error .out_of_range := by
  unfold loadWaypointsForVer1
  rw [hfile]
  simp only [hrows]
  rw [mapM_except_cons, hparse, mapM_except_nil]
  exact headingPass_single P w

/-- C12, on the code: detection returns `unknown` for a file that cannot be opened,
and raises `std::out_of_range` (from `parsed_columns.at(0)`) for the empty file,
for the file whose first line is empty and for the file whose first line has only
spaces and commas. -/
theorem checkFileFormat_no_token :
    checkFileFormat (oneFile "") "g".toList = .ok .unknown ∧
      checkFileFormat (oneFile "") "f".toList = .error .out_of_range ∧
      checkFileFormat (oneFile "\n1,2,3") "f".toList = .error .out_of_range ∧
      checkFileFormat (oneFile " , ,\n1,2,3") "f".toList = .error .out_of_range := by
  decide

/-- C13, on the code: for the file with the lines `0,0,0` and `1,2,0,36`, detected
as `ver1` and accepted by the validator, with one data row of 4 tokens, the loader
raises `std::out_of_range`: the heading loop reads `wps->at(i - 1)` with `i = 0`.
For the file with the one line `0,0,0` it returns no point. -/
theorem loadWaypointsForVer1_single_row :
    checkFileFormat (oneFile "0,0,0\n1,2,0,36") "f".toList = .ok .ver1 ∧
      verifyFileConsistency (oneFile "0,0,0\n1,2,0,36") "f".toList = .ok true ∧
      (dataLines "0,0,0\n1,2,0,36".toList).map (fun line => (parseColumns line).length) = [4] ∧
      loadWaypointsForVer1 exact (oneFile "0,0,0\n1,2,0,36") "f".toList
        = .error .out_of_range ∧
      loadWaypointsForVer1 exact (oneFile "0,0,0") "f".toList = .ok [] := by
  decide

/-- C16, on the code: the file with the lines `0,0,0` and `1,,2,3` is detected as
`ver1` and accepted by the validator, which counts 4 fields in the row; the row
has 3 tokens, and the `ver1` parser reads `columns[3]` out of range. -/
theorem verifyFileConsistency_no_guard :
    checkFileFormat (oneFile "0,0,0\n1,,2,3") "f".toList = .ok .ver1 ∧
      verifyFileConsistency (oneFile "0,0,0\n1,,2,3") "f".toList = .ok true ∧
      (dataLines "0,0,0\n1,,2,3".toList).map (fun line => (parseColumns line).length) = [3] ∧
      createLaneWaypoint exact (oneFile "0,0,0\n1,,2,3") "f".toList
        = .error .undefined_behaviour := by
  decide

/-- C19: a readable file with at least one data line, a first token with a decimal
digit and the same `countColumns` on every line, the first included, is rejected
by the validator, and the route built for it is the empty route, on every
platform. -/
theorem verifyFileConsistency_uniform (fs : FileSystem) (file_path content first : Text)
    (rest : List Text) (hfile : fs file_path = some content)
    (htok : parseColumns (firstLine content) = first :: rest)
    (hdigit : first.any Char.isDigit = true)
    (hrows : dataLines content ≠ [])
    (hsame : ∀ line ∈ dataLines content, countColumns line = countColumns (firstLine content)) :
    verifyFileConsistency fs file_path = .ok false ∧
      ∀ (D Q : Type) (P : Platform D Q), createLaneWaypoint P fs file_path = .ok (Lane.init) := by
  have hv : verifyFileConsistency fs file_path = .ok false := by
    obtain ⟨line, more, hl⟩ := List.exists_cons_of_ne_nil hrows
    have hline := hsame line (by rw [hl]; exact List.mem_cons_self _ _)
    unfold verifyFileConsistency checkFileFormat
    rw [hfile]
    simp only [htok, hdigit, Bool.not_true, Bool.false_eq_true, if_false]
    by_cases h3 : countColumns (firstLine content) = 3
    · simp [h3, expectedColumns, hl, hline]
    · by_cases h4 : countColumns (firstLine content) = 4
      · simp [h4, expectedColumns, hl, hline]
      · simp [h3, h4]
  exact ⟨hv, fun D Q P => createLaneWaypoint_rejected P fs file_path hv⟩

/-- C19, at the file with the lines `1,2,3` and `4,5,6`. -/
theorem verifyFileConsistency_uniform_witness :
    verifyFileConsistency (oneFile "1,2,3\n4,5,6") "f".toList = .ok false ∧
      ∀ (D Q : Type) (P : Platform D Q),
        createLaneWaypoint P (oneFile "1,2,3\n4,5,6") "f".toList = .ok (Lane.init) :=
  verifyFileConsistency_uniform (oneFile "1,2,3\n4,5,6") "f".toList "1,2,3\n4,5,6".toList
    "1".toList ["2".toList, "3".toList] (by decide) (by decide) (by decide) (by decide)
    (by decide)

/-- A line whose parts are non-empty strings of digits: `getline` reads exactly the
parts of the split, and they are the tokens. -/
theorem digit_fields (line : Text)
    (h : ∀ field ∈ line.splitOn ',', field ≠ [] ∧ ∀ c ∈ field, c.isDigit = true) :
    getlineAll ',' line = line.splitOn ',' ∧ parseColumns line = line.splitOn ',' := by
  have hg : getlineAll ',' line = line.splitOn ',' := by
    rcases splitOn_getlineAll ',' line with h1 | ⟨h1, _⟩
    · exact absurd rfl (h [] (by rw [h1]; simp)).1
    · exact h1.symm
  refine ⟨hg, ?_⟩
  unfold parseColumns
  rw [hg]
  have hmap : (line.splitOn ',').map eraseSpaces = line.splitOn ',' := by
    conv_rhs => rw [← List.map_id (line.splitOn ',')]
    apply List.map_congr_left
    intro field hf
    unfold eraseSpaces
    rw [id, List.filter_eq_self]
    intro c hc
    have hd := (h field hf).2 c hc
    simp only [bne_iff_ne, ne_eq]
    rintro rfl
    exact absurd hd (by decide)
  rw [hmap, List.filter_eq_self]
  intro field hf
  have := (h field hf).1
  cases field with
  | nil => exact absurd rfl this
  | cons c cs => rfl

/-- C11: a readable file whose first token has no decimal digit is detected as
`ver3`; a readable file whose first line splits on `','` into non-empty strings of
decimal digits is detected as `ver1` when the line has 3 fields, `ver2` when it has
4, `unknown` for every other count, the count being `countColumns`, which is the
number of parts of the split here. -/
theorem checkFileFormat_table (fs : FileSystem) (filename content : Text)
    (hfile : fs filename = some content) :
    (∀ (first : Text) (rest : List Text), parseColumns (firstLine content) = first :: rest →
        (∀ c ∈ first, c.isDigit = false) → checkFileFormat fs filename = .ok .ver3) ∧
      ((∀ field ∈ (firstLine content).splitOn ',',
          field ≠ [] ∧ ∀ c ∈ field, c.isDigit = true) →
        countColumns (firstLine content) = ((firstLine content).splitOn ',').length ∧
        checkFileFormat fs filename =
          .ok (if countColumns (firstLine content) = 3 then .ver1
               else if countColumns (firstLine content) = 4 then .ver2
               else .unknown)) := by
  constructor
  · intro first rest htok hno
    unfold checkFileFormat
    rw [hfile]
    simp only [htok]
    have : first.any Char.isDigit = false := by
      rw [List.any_eq_false]
      intro c hc
      simp [hno c hc]
    simp [this]
  · intro h
    obtain ⟨hg, hp⟩ := digit_fields (firstLine content) h
    refine ⟨by unfold countColumns; rw [hg], ?_⟩
    unfold checkFileFormat
    rw [hfile]
    cases hs : (firstLine content).splitOn ',' with
    | nil => exact absurd hs (List.splitOnP_ne_nil _ _)
    | cons first rest =>
      rw [hs] at hp h
      have hfirst := h first (List.mem_cons_self _ _)
      have hany : first.any Char.isDigit = true := by
        cases first with
        | nil => exact absurd rfl hfirst.1
        | cons c cs => simp [hfirst.2 c (List.mem_cons_self _ _)]
      simp only [hp, hany, Bool.not_true, Bool.false_eq_true, if_false]

/-- C11, at the files with the first lines `name,x,y,z` and `1,2,3`. -/
theorem checkFileFormat_table_witness :
    checkFileFormat (oneFile "name,x,y,z") "f".toList = .ok .ver3 ∧
      (countColumns (firstLine "1,2,3".toList) = ((firstLine "1,2,3".toList).splitOn ',').length ∧
        checkFileFormat (oneFile "1,2,3") "f".toList =
          .ok (if countColumns (firstLine "1,2,3".toList) = 3 then .ver1
               else if countColumns (firstLine "1,2,3".toList) = 4 then .ver2
               else .unknown)) :=
  ⟨(checkFileFormat_table (oneFile "name,x,y,z") "f".toList "name,x,y,z".toList
      (by decide)).1 "name".toList ["x".toList, "y".toList, "z".toList] (by decide) (by decide),
   (checkFileFormat_table (oneFile "1,2,3") "f".toList "1,2,3".toList (by decide)).2
      (by decide)⟩

/-- `parseColumns` yields at most as many tokens as `countColumns` counts. -/
theorem parseColumns_length_le_count (line : Text) :
    (parseColumns line).length ≤ countColumns line := by
  unfold parseColumns countColumns
  calc (((getlineAll ',' line).map eraseSpaces).filter (fun column => !column.isEmpty)).length
      ≤ ((getlineAll ',' line).map eraseSpaces).length := List.length_filter_le _ _
    _ = (getlineAll ',' line).length := List.length_map _ _

/-- `parseColumns` yields as many tokens as `countColumns` counts exactly when no
field is empty or made of spaces only. -/
theorem parseColumns_length_eq_iff (line : Text) :
    (parseColumns line).length = countColumns line ↔
      ∀ part ∈ getlineAll ',' line, ¬ (∀ c ∈ part, c = ' ') := by
  unfold parseColumns countColumns
  rw [← List.length_map (getlineAll ',' line) eraseSpaces, List.filter_length_eq_length]
  simp only [List.mem_map, forall_exists_index, and_imp, forall_apply_eq_imp_iff₂]
  apply forall_congr'
  intro part
  apply imp_congr_right
  intro _
  unfold eraseSpaces
  rw [Bool.not_eq_true', List.isEmpty_eq_false, ne_eq, List.filter_eq_nil_iff]
  simp

/-- C20: for every line, `parseColumns` yields at most `countColumns` tokens, and
exactly as many when none of the fields counted by `countColumns` is empty or made
of spaces only. -/
theorem parseColumns_length_le (line : Text) :
    (parseColumns line).length ≤ countColumns line ∧
      ((parseColumns line).length = countColumns line ↔
        ∀ part ∈ getlineAll ',' line, ¬ (∀ c ∈ part, c = ' ')) :=
  ⟨parseColumns_length_le_count line, parseColumns_length_eq_iff line⟩

/-- The number of parts of the split of a line on a character. -/
theorem splitOn_length (d : Char) (s : Text) : (s.splitOn d).length = s.count d + 1 := by
  induction s with
  | nil => rfl
  | cons c cs ih =>
    rw [splitOn_cons]
    by_cases h : c = d
    · subst h
      simp [ih]
    · have hne : (c == d) = false := by simpa using h
      simp only [h, if_false, List.count_cons, hne, Bool.false_eq_true]
      rw [← ih]
      cases cs.splitOn d <;> rfl

/-- `getline` reads no field only from the empty stream. -/
theorem getlineAll_eq_nil (d : Char) (s : Text) (h : getlineAll d s = []) : s = [] := by
  cases s with
  | nil => rfl
  | cons c cs =>
    simp only [getlineAll] at h
    split_ifs at h
    cases hg : getlineAll d cs <;> rw [hg] at h <;> cases h

/-- The number of fields `getline` reads from a line. -/
theorem getlineAll_length (d : Char) (s : Text) :
    (getlineAll d s).length =
      if s = [] ∨ s.getLast? = some d then s.count d else s.count d + 1 := by
  induction s with
  | nil => rfl
  | cons c cs ih =>
    have hcond : ((c :: cs) = [] ∨ (c :: cs).getLast? = some d) ↔
        ((c = d ∧ cs = []) ∨ (cs ≠ [] ∧ cs.getLast? = some d)) := by
      cases cs with
      | nil => simp
      | cons x xs => simp [List.getLast?_cons_cons]
    by_cases h : c = d
    · subst h
      simp only [getlineAll, if_true, List.length_cons, ih, List.count_cons_self]
      by_cases hcs : cs = []
      · subst hcs; simp
      · have h1 : (cs = [] ∨ cs.getLast? = some c) ↔ cs.getLast? = some c := by simp [hcs]
        have h2 : ((c :: cs) = [] ∨ (c :: cs).getLast? = some c) ↔ cs.getLast? = some c := by
          rw [hcond]; simp [hcs]
        simp only [h1, h2]
        split_ifs <;> rfl
    · have hne : (c == d) = false := by simpa using h
      simp only [getlineAll, h, if_false, List.count_cons, hne, Bool.false_eq_true]
      by_cases hcs : cs = []
      · subst hcs
        simp [getlineAll, h]
      · have h1 : (cs = [] ∨ cs.getLast? = some d) ↔ cs.getLast? = some d := by simp [hcs]
        have h2 : ((c :: cs) = [] ∨ (c :: cs).getLast? = some d) ↔ cs.getLast? = some d := by
          rw [hcond]; simp [hcs, h]
        cases hg : getlineAll d cs with
        | nil => exact absurd (getlineAll_eq_nil d cs hg) hcs
        | cons p ps =>
          rw [hg] at ih
          simp only [List.length_cons] at ih ⊢
          rw [ih]
          simp only [h1, h2, add_zero]

/-- C14, as stated, fails: `countColumns` is 0 on the empty line, whose split has
one part, and 1 on the line `a,`, which has one `','` and whose split has two
parts. -/
theorem countColumns_trailing :
    countColumns [] = 0 ∧ (([] : Text).splitOn ',').length = 1 ∧
      countColumns "a,".toList = 1 ∧ ("a,".toList.splitOn ',').length = 2 ∧
      "a,".toList.count ',' + 1 = 2 := by
  decide

/-- C14, amended: the split of a line on `','` has one part more than the line has
`','`; `countColumns` is that number of parts when the line is not empty and does
not end in `','`, and one less, the number of `','`, when the line is empty or
ends in `','`: 0 on the empty line. -/
theorem countColumns_eq (line : Text) :
    (line.splitOn ',').length = line.count ',' + 1 ∧
      countColumns line =
        (if line = [] ∨ line.getLast? = some ',' then line.count ',' else line.count ',' + 1) ∧
      countColumns [] = 0 :=
  ⟨splitOn_length ',' line, getlineAll_length ',' line, rfl⟩

/-- The final segment of a path without `'/'` is the path. -/
theorem finalSegmentSpec_no_slash (path : Text) (h : '/' ∉ path) :
    finalSegmentSpec path = path := by
  unfold finalSegmentSpec
  have : path.reverse.takeWhile (fun c => c != '/') = path.reverse := by
    rw [List.takeWhile_eq_self_iff]
    intro c hc
    have hc2 : c ∈ path := List.mem_reverse.mp hc
    simp only [bne_iff_ne, ne_eq]
    rintro rfl
    exact h hc2
  rw [this, List.reverse_reverse]

/-- The final segment of a path is what follows its last `'/'`. -/
theorem finalSegmentSpec_slash (dir seg : Text) (h : '/' ∉ seg) :
    finalSegmentSpec (dir ++ '/' :: seg) = seg := by
  unfold finalSegmentSpec
  have hstop : ∀ (l1 l2 : Text), (∀ a ∈ l1, a ≠ '/') →
      (l1 ++ '/' :: l2).takeWhile (fun c => c != '/') = l1 := by
    intro l1 l2 hl
    induction l1 with
    | nil => simp
    | cons a l ih =>
      have ha : a ≠ '/' := hl a (List.mem_cons_self _ _)
      simp only [List.cons_append, List.takeWhile_cons, bne_iff_ne, ne_eq, ha,
        not_false_eq_true, decide_True, if_true]
      rw [ih (fun b hb => hl b (List.mem_cons_of_mem _ hb))]
  have hrev : (dir ++ '/' :: seg).reverse = seg.reverse ++ '/' :: dir.reverse := by simp
  rw [hrev, hstop seg.reverse dir.reverse, List.reverse_reverse]
  intro a ha
  rintro rfl
  exact h (List.mem_reverse.mp ha)

/-- C15: for every path whose final segment has no `'.'` and every suffix, the
result is the path, the suffix and `.csv`, whatever the directory part holds. -/
theorem addFileSuffix_no_extension (path suffix : Text)
    (h : '.' ∉ finalSegmentSpec path) :
    addFileSuffix path suffix = .ok (path ++ suffix ++ ".csv".toList) := by
  rw [addFileSuffix_unfold]
  by_cases hs : '/' ∈ path
  · obtain ⟨dir, seg, hpath, hseg⟩ := exists_last_split '/' path hs
    subst hpath
    rw [finalSegmentSpec_slash dir seg hseg] at h
    rw [addFileSuffix_tmp_slash dir seg hseg]
    have hd : '.' ∉ ('/' :: seg) ∨ ('/' :: seg).getLast? = some '.' := by
      left
      simp only [List.mem_cons, not_or]
      exact ⟨by decide, h⟩
    simp only [findLastOf_dot_keep _ hd, if_false, List.append_assoc, List.cons_append]
  · rw [finalSegmentSpec_no_slash path hs] at h
    rw [addFileSuffix_tmp_no_slash path hs]
    simp only [findLastOf_dot_keep path (Or.inl h), if_false, List.append_assoc]

/-- C15, at the path `a.b/c`, whose directory has a `'.'`. -/
theorem addFileSuffix_no_extension_witness :
    addFileSuffix "a.b/c".toList "_replanned".toList
      = .ok ("a.b/c".toList ++ "_replanned".toList ++ ".csv".toList) :=
  addFileSuffix_no_extension "a.b/c".toList "_replanned".toList (by decide)

/-! ## Saving: lemmas and claims -/

/-- A field without the delimiter, followed by the delimiter, is read whole. -/
theorem getlineAll_append (d : Char) (s rest : Text) (h : d ∉ s) :
    getlineAll d (s ++ d :: rest) = s :: getlineAll d rest := by
  induction s with
  | nil => simp [getlineAll]
  | cons c cs ih =>
    have hc : c ≠ d := fun hc => h (hc ▸ List.mem_cons_self _ _)
    have hcs : d ∉ cs := fun hm => h (List.mem_cons_of_mem _ hm)
    have hrec := ih hcs
    simp only [List.cons_append, getlineAll, hc, if_false]
    rw [show cs.append (d :: rest) = cs ++ d :: rest from rfl, hrec]

/-- A non-empty stream without the delimiter holds one field. -/
theorem getlineAll_single (d : Char) (s : Text) (h : d ∉ s) (hne : s ≠ []) :
    getlineAll d s = [s] := by
  induction s with
  | nil => exact absurd rfl hne
  | cons c cs ih =>
    have hc : c ≠ d := fun hc => h (hc ▸ List.mem_cons_self _ _)
    have hcs : d ∉ cs := fun hm => h (List.mem_cons_of_mem _ hm)
    cases cs with
    | nil => simp [getlineAll, hc]
    | cons x xs =>
      simp only [getlineAll, hc, if_false] at ih ⊢
      rw [ih hcs (by simp)]

/-- The fields `getline` reads from texts joined with `","` are those texts, when
none is empty or has a `','`. -/
theorem getlineAll_joinComma (fields : List Text)
    (h : ∀ s ∈ fields, s ≠ [] ∧ ',' ∉ s) :
    getlineAll ',' (joinComma fields) = fields := by
  induction fields with
  | nil => rfl
  | cons f rest ih =>
    have hf := h f (List.mem_cons_self _ _)
    cases rest with
    | nil => exact getlineAll_single ',' f hf.2 hf.1
    | cons g more =>
      simp only [joinComma]
      rw [getlineAll_append ',' f _ hf.2, ih (fun s hs => h s (List.mem_cons_of_mem _ hs))]

/-- A character that is in none of the texts joined with `","`, and is not `','`,
is not in the joined text. -/
theorem not_mem_joinComma (c : Char) (fields : List Text) (hc : c ≠ ',')
    (h : ∀ s ∈ fields, c ∉ s) : c ∉ joinComma fields := by
  induction fields with
  | nil => simp [joinComma]
  | cons f rest ih =>
    have hf := h f (List.mem_cons_self _ _)
    have hrest := ih (fun s hs => h s (List.mem_cons_of_mem _ hs))
    cases rest with
    | nil => simpa [joinComma] using hf
    | cons g more =>
      simp only [joinComma, List.mem_append, List.mem_cons, not_or]
      exact ⟨hf, hc, by simpa [joinComma] using hrest⟩

section SavingLemmas

variable {D Q : Type} (O : Output D Q)

/-- The numbers of a row have no line break. -/
theorem rowFields_line (el : Waypoint D Q) : ∀ s ∈ rowFields O el, '\n' ∉ s := by
  intro s hs
  simp only [rowFields, List.mem_cons, List.mem_singleton, List.not_mem_nil, or_false] at hs
  rcases hs with h | h | h | h | h | h | h | h | h | h <;> subst h <;>
    first | exact O.showDouble_line _ | exact O.showInt_line _

/-- The lines of the rows written for a list of waypoints. -/
theorem getlineAll_rowsText (wps : List (Waypoint D Q)) :
    getlineAll '\n' (rowsText O wps) = wps.map (fun el => joinComma (rowFields O el)) := by
  induction wps with
  | nil => rfl
  | cons el rest ih =>
    simp only [rowsText, List.map_cons]
    rw [getlineAll_append '\n' _ _
      (not_mem_joinComma '\n' _ (by decide) (rowFields_line O el)), ih]

/-- The lines of the file written for a lane: the header, then one line per
waypoint. -/
theorem fileLines_laneText (lane : Lane D Q) :
    fileLines (laneText O lane) =
      canonicalHeader :: lane.waypoints.map (fun el => joinComma (rowFields O el)) := by
  unfold fileLines laneText
  rw [getlineAll_append '\n' canonicalHeader _ (by decide), getlineAll_rowsText]

/-- C17: for every lane whose written numbers are non-empty and free of `','` and
`' '`, saving it to a path returns; the file then holds the header line followed
by one line per waypoint, each of 10 fields and 10 tokens like the header; the file
is detected as `ver3` and accepted by the validator. -/
theorem saveLaneArray_accepted (fs : FileSystem) (path : Text) (lane : Lane D Q)
    (hfields : ∀ el ∈ lane.waypoints, ∀ s ∈ rowFields O el, s ≠ [] ∧ ',' ∉ s ∧ ' ' ∉ s) :
    ∃ fs2, saveLaneArray O fs [path] [lane] = .ok fs2 ∧
      fs2 path = some (laneText O lane) ∧
      firstLine (laneText O lane) = canonicalHeader ∧
      dataLines (laneText O lane)
        = lane.waypoints.map (fun el => joinComma (rowFields O el)) ∧
      (dataLines (laneText O lane)).length = lane.waypoints.length ∧
      countColumns canonicalHeader = 10 ∧
      (∀ line ∈ dataLines (laneText O lane),
        countColumns line = 10 ∧ (parseColumns line).length = 10) ∧
      checkFileFormat fs2 path = .ok .ver3 ∧
      verifyFileConsistency fs2 path = .ok true := by
  have hfirst : firstLine (laneText O lane) = canonicalHeader := by
    unfold firstLine; rw [fileLines_laneText]; rfl
  have hdata : dataLines (laneText O lane)
      = lane.waypoints.map (fun el => joinComma (rowFields O el)) := by
    unfold dataLines; rw [fileLines_laneText]; rfl
  have hrow : ∀ line ∈ dataLines (laneText O lane),
      countColumns line = 10 ∧ (parseColumns line).length = 10 := by
    intro line hl
    rw [hdata] at hl
    obtain ⟨el, hel, rfl⟩ := List.mem_map.mp hl
    have hf := hfields el hel
    have hg : getlineAll ',' (joinComma (rowFields O el)) = rowFields O el :=
      getlineAll_joinComma _ (fun s hs => ⟨(hf s hs).1, (hf s hs).2.1⟩)
    have hcount : countColumns (joinComma (rowFields O el)) = 10 := by
      unfold countColumns; rw [hg]; rfl
    refine ⟨hcount, ?_⟩
    rw [← hcount]
    refine (parseColumns_length_eq_iff _).mpr ?_
    rw [hg]
    intro part hp hall
    have hpart := hf part hp
    cases part with
    | nil => exact hpart.1 rfl
    | cons c cs =>
      have := hall c (List.mem_cons_self _ _)
      subst this
      exact hpart.2.2 (List.mem_cons_self _ _)
  have hfs : writeFile fs path (laneText O lane) path = some (laneText O lane) := by
    simp [writeFile]
  have hfmt : checkFileFormat (writeFile fs path (laneText O lane)) path = .ok .ver3 := by
    unfold checkFileFormat
    rw [hfs]
    simp only [hfirst]
    rfl
  refine ⟨writeFile fs path (laneText O lane), rfl, hfs, hfirst, hdata, ?_, by decide, hrow,
    hfmt, ?_⟩
  · rw [hdata, List.length_map]
  · rw [verifyFileConsistency_ver3 _ path _ hfs hfmt, hfirst]
    congr 1
    rw [List.all_eq_true]
    intro line hl
    have h10 : countColumns canonicalHeader = 10 := by decide
    simp [(hrow line hl).1, h10]

end SavingLemmas

/-- C17, at the lane of one waypoint at (1, 2, 0) with yaw 1.57 and speed 10 m/s,
written as `1.0000,2.0000,0.0000,1.5700,36.0000,0,0,0,0,0`. -/
theorem saveLaneArray_accepted_witness :
    ∃ fs2, saveLaneArray exactOutput (oneFile "") ["f".toList] [onePointLane] = .ok fs2 ∧
      fs2 "f".toList = some (laneText exactOutput onePointLane) ∧
      firstLine (laneText exactOutput onePointLane) = canonicalHeader ∧
      dataLines (laneText exactOutput onePointLane)
        = onePointLane.waypoints.map (fun el => joinComma (rowFields exactOutput el)) ∧
      (dataLines (laneText exactOutput onePointLane)).length
        = onePointLane.waypoints.length ∧
      countColumns canonicalHeader = 10 ∧
      (∀ line ∈ dataLines (laneText exactOutput onePointLane),
        countColumns line = 10 ∧ (parseColumns line).length = 10) ∧
      checkFileFormat fs2 "f".toList = .ok .ver3 ∧
      verifyFileConsistency fs2 "f".toList = .ok true :=
  saveLaneArray_accepted exactOutput (oneFile "") "f".toList onePointLane
    (by with_unfolding_all decide)

/-- The text written for the lane of one waypoint at (1, 2, 0) with yaw 1.57 and
speed 10 m/s, and for the empty lane. -/
theorem laneText_example :
    laneText exactOutput onePointLane
        = ("x,y,z,yaw,velocity,change_flag,steering_flag,accel_flag,stop_flag,event_flag\n" ++
            "1.0000,2.0000,0.0000,1.5700,36.0000,0,0,0,0,0\n").toList ∧
      laneText exactOutput (Lane.init)
        = "x,y,z,yaw,velocity,change_flag,steering_flag,accel_flag,stop_flag,event_flag\n".toList := by
  constructor <;> with_unfolding_all decide

section NodeClaims

variable {D Q : Type} (O : Output D Q) (P : Platform D Q)

/-- A rebuild that raises replaces the paths and keeps the lanes. -/
theorem configCallback_raised (replanning_mode : Bool) (replan : Lane D Q → Lane D Q)
    (fs : FileSystem) (node : Node D Q) (conf : Text) (e : Fault)
    (h : createLaneArray P replanning_mode replan fs (parseColumns conf) = .error e) :
    configCallback P replanning_mode replan fs node conf
      = ({ multi_lane_csv := conf, multi_file_path := parseColumns conf,
           output_lane_array := node.output_lane_array }, some e) := by
  unfold configCallback
  simp only [h]

end NodeClaims

section RoundTripLemmas

variable {D Q : Type} (P : Platform D Q) (O : Output D Q)

end RoundTripLemmas

end WaypointLoader
